import Mathlib

/-!
# netmap: record store, record identity and peer fan-out

A shallow embedding of `internal/cache/records.go` and of the fan-out handlers of
`internal/api/v1/api.go`, with the properties of the store proved over it.

Conventions of the embedding

* A Go `map[string]V` is a `GoMap V`: a list of entries with pairwise distinct keys.
  The order of the list is an iteration order of the map; no theorem depends on it.
* Go `int`, `int64` and `time.Duration` are `Int`; `uint16` and bytes are `Nat`.
* The mutex of `Records` is not modelled: every method holds the exclusive (or
  shared) lock for its whole body, so a method is one atomic step on the state.
* A reading of `time.Now().UTC().Unix()` is an explicit argument.
* A method with a pointer receiver returns the new state next to its result.
-/

namespace Netmap

/-! ## Go maps with string keys -/

/-- A Go `map[string]α`: entries with pairwise distinct keys. -/
structure GoMap (α : Type) where
  entries : List (String × α)
  nodup : (entries.map Prod.fst).Nodup

namespace GoMap

variable {α : Type}

/-- Result of `make(map[string]α)`. -/
def empty : GoMap α := ⟨[], List.nodup_nil⟩

/-- Lookup `v, found := m[k]`: `none` stands for `found == false`. -/
def get (m : GoMap α) (k : String) : Option α :=
  (m.entries.find? (fun e => e.1 = k)).map Prod.snd

/-- Builtin `len(m)`. -/
def len (m : GoMap α) : Nat := m.entries.length

/-- Keys of the map, in iteration order. -/
def keys (m : GoMap α) : List String := m.entries.map Prod.fst

/-- Builtin `delete(m, k)`. -/
def delete (m : GoMap α) (k : String) : GoMap α :=
  ⟨m.entries.filter (fun e => e.1 ≠ k),
    List.Nodup.sublist (List.Sublist.map _ (List.filter_sublist m.entries)) m.nodup⟩

/-- Assignment `m[k] = v`: the entry of `k`, if any, is replaced. -/
def set (m : GoMap α) (k : String) (v : α) : GoMap α :=
  ⟨(k, v) :: m.entries.filter (fun e => e.1 ≠ k),
    List.nodup_cons.2 ⟨by
        intro hk
        obtain ⟨e, he, rfl⟩ := List.mem_map.1 hk
        have := (List.mem_filter.1 he).2
        simp at this,
      List.Nodup.sublist (List.Sublist.map _ (List.filter_sublist m.entries)) m.nodup⟩⟩

instance [DecidableEq α] : DecidableEq (GoMap α) := fun m m' =>
  if h : m.entries = m'.entries then
    isTrue (by cases m; cases m'; cases h; rfl)
  else isFalse (fun e => h (e ▸ rfl))

end GoMap

/-! ## Data model (`internal/cache/records.go`) -/

/-- Go `net.IP`, a byte slice: `none` is the nil slice, `some bs` a slice of bytes `bs`. -/
abbrev NetIP := Option (List Nat)

/-- A Go `float64` that the store only carries around, as its IEEE-754 bit pattern. -/
abbrev F64Bits := Nat

structure SockAddr where
  IP : NetIP
  Name : String
deriving DecidableEq, Repr

structure Relation where
  Mode : String
  Port : Nat
  Command : String
  Result : Int
  Response : F64Bits
  Trace : Int
deriving DecidableEq, Repr

structure Options where
  Service : String
  Status : String
  Command : String
  Timeout : F64Bits
  MaxRespTime : F64Bits
  ActiveTime : Int
deriving DecidableEq, Repr

structure SockTable where
  Id : String
  LocalAddr : SockAddr
  RemoteAddr : SockAddr
  Relation : Relation
  Options : Options
deriving DecidableEq, Repr

/-- The store `Records`: `items`, `limit` (Go `int`) and `flush` (a `time.Duration`,
that is a count of nanoseconds). -/
structure Records where
  items : GoMap SockTable
  limit : Int
  flush : Int
deriving DecidableEq

/-- Constructor `NewCacheRecords(limit, flush)`. -/
def NewCacheRecords (limit : Int) (flush : Int) : Records :=
  { items := GoMap.empty, limit := limit, flush := flush }

namespace Records

/-- Method `Set(key, val, active)` called at clock reading `now`: the new state and the
returned error (`none` is `nil`). -/
def Set (t : Records) (key : String) (val : SockTable) (active : Bool) (now : Int) :
    Records × Option String :=
  let found := (t.items.get key).isSome
  if !found && decide ((t.items.len : Int) ≥ t.limit) then
    (t, some ("cache limit exceeded, id: " ++ key))
  else
    let val := if active then { val with Options := { val.Options with ActiveTime := now } } else val
    ({ t with items := t.items.set key val }, none)

/-- Method `Get(key)`: the record and the `found` flag; a missing key gives the zero
record of the map read. -/
def Get (t : Records) (key : String) : SockTable × Bool :=
  match t.items.get key with
  | some val => (val, true)
  | none =>
    (⟨"", ⟨none, ""⟩, ⟨none, ""⟩, ⟨"", 0, "", 0, 0, 0⟩, ⟨"", "", "", 0, 0, 0⟩⟩, false)

/-- Method `Del(key)`: the new state and the returned flag. -/
def Del (t : Records) (key : String) : Records × Bool :=
  ({ t with items := t.items.delete key }, true)

/-- Method `Items()`: a copy of the map. -/
def Items (t : Records) : GoMap SockTable :=
  t.items.entries.foldl (fun items e => items.set e.1 e.2) GoMap.empty

end Records

/-! ### The expiry test in `float64`

`DelExpiredItems` compares
`float64(ActiveTime) + float64(flush / time.Second) < float64(now)`.
All three operands are integers, so every `float64` that occurs is an integer and is
modelled by its exact value. Converting an integer and adding two such values round
to the nearest value with a 53-bit significand, ties to even. -/

/-- Number of low bits that the magnitude `m` loses in a 53-bit significand. -/
def f64DropBits : Nat → Nat → Nat
  | 0, _ => 0
  | fuel + 1, m => if m < 2 ^ 53 then 0 else f64DropBits fuel (m / 2) + 1

/-- Magnitude `m` rounded to the nearest `float64`, ties to even. -/
def f64RoundNat (m : Nat) : Nat :=
  let e := f64DropBits m m
  if e = 0 then m
  else
    let q := m / 2 ^ e
    let r := m % 2 ^ e
    let half := 2 ^ (e - 1)
    if r > half ∨ (r = half ∧ q % 2 = 1) then (q + 1) * 2 ^ e else q * 2 ^ e

/-- Conversion `float64(x)` of an integer. -/
def f64OfInt (x : Int) : Int :=
  if x < 0 then -((f64RoundNat x.natAbs : Nat) : Int) else ((f64RoundNat x.natAbs : Nat) : Int)

/-- Sum `x + y` of two integer-valued `float64`. -/
def f64Add (x y : Int) : Int := f64OfInt (x + y)

/-- Constant `time.Second`, in nanoseconds. -/
def timeSecond : Int := 1000000000

/-- The test `float64(v.Options.ActiveTime) + float64(t.flush / time.Second) <
float64(time.Now().UTC().Unix())`; Go integer division truncates toward zero. -/
def expired (flush : Int) (v : SockTable) (now : Int) : Bool :=
  decide (f64Add (f64OfInt v.Options.ActiveTime) (f64OfInt (Int.tdiv flush timeSecond))
    < f64OfInt now)

namespace Records

/-- Method `DelExpiredItems()`. The loop ranges over the entries of the map and deletes
from the map it ranges over; `clock k` is the reading of `time.Now().UTC().Unix()`
taken when the entry of key `k` is visited. -/
def DelExpiredItems (t : Records) (clock : String → Int) : Records × Bool :=
  let items := t.items.entries.foldl
    (fun items e =>
      if e.2.Options.Status = "added" then items
      else if expired t.flush e.2 (clock e.1) then items.delete e.1
      else items)
    t.items
  ({ t with items := items }, true)

end Records

/-! ## Record identity (`GetHash`, `GetID`) -/

/-- Digits of `n` in base `b`, most significant first, as `strconv` prints them
(lower-case letters above 9); `fuel` bounds the number of digits. -/
def digitsBE (b : Nat) : Nat → Nat → List Char
  | 0, _ => []
  | fuel + 1, n =>
    if n < b then [Nat.digitChar n]
    else digitsBE b fuel (n / b) ++ [Nat.digitChar (n % b)]

/-- Verb `%v` (and `%d`) of `fmt` on an unsigned integer: its decimal digits. -/
def fmtUint (n : Nat) : String := String.mk (digitsBE 10 (n + 1) n)

/-- Hexadecimal digits of a 16-bit group without leading zeros (`appendHex` of
`net/netip`). -/
def fmtHex (n : Nat) : String := String.mk (digitsBE 16 (n + 1) n)

/-- Function `hexString` of package `net`: two lower-case hexadecimal digits a byte. -/
def hexString (bs : List Nat) : String :=
  String.mk (bs.flatMap (fun b => [Nat.digitChar (b / 16 % 16), Nat.digitChar (b % 16)]))

/-- Method `To4` of `net.IP`: the 4-byte form of an IPv4 address given in 4 bytes or as
an IPv4-mapped 16-byte address, `none` (nil) otherwise. -/
def To4 (ip : List Nat) : Option (List Nat) :=
  if ip.length = 4 then some ip
  else if ip.length = 16 ∧ ip.take 10 = List.replicate 10 0 ∧
      ip.getD 10 0 = 255 ∧ ip.getD 11 0 = 255 then some (ip.drop 12)
  else none

/-- Dotted decimal form of a 4-byte address. -/
def fmtIPv4 (p : List Nat) : String :=
  String.intercalate "." (p.map fmtUint)

/-- The eight 16-bit groups of a 16-byte address. -/
def groups16 (ip : List Nat) : List Nat :=
  (List.range 8).map (fun i => ip.getD (2 * i) 0 * 256 + ip.getD (2 * i + 1) 0)

/-- First longest run of at least two zero groups, as `(start, end)`; `(255, 255)` when
there is none (first loop of `appendTo6` in `net/netip`). -/
def zeroRun (g : List Nat) : Nat × Nat :=
  (List.range 8).foldl
    (fun z i =>
      let l := ((g.drop i).takeWhile (fun x => x == 0)).length
      if l ≥ 2 ∧ l > z.2 - z.1 then (i, i + l) else z)
    (255, 255)

/-- Textual form of a 16-byte address that is not IPv4-mapped (second loop of
`appendTo6`): groups in hexadecimal, the run `zeroRun` written `::`. -/
def fmtIPv6 (ip : List Nat) : String :=
  let g := groups16 ip
  let z := zeroRun g
  String.join ((List.range 8).map (fun i =>
    if z.1 ≤ i ∧ i < z.2 then (if i = z.1 then "::" else "")
    else (if 0 < i ∧ i ≠ z.2 then ":" else "") ++ fmtHex (g.getD i 0)))

/-- Method `String` of `net.IP`, which the verb `%v` calls. -/
def NetIP.String (ip : NetIP) : String :=
  match ip with
  | none => "<nil>"
  | some bs =>
    if bs.length = 0 then "<nil>"
    else if bs.length ≠ 4 ∧ bs.length ≠ 16 then "?" ++ hexString bs
    else match To4 bs with
      | some p4 => fmtIPv4 p4
      | none => fmtIPv6 bs

/-! ### SHA-1 (`crypto/sha1`), on 32-bit words held in `Nat` -/

/-- Bytes of a Go string; a `String` stands for its UTF-8 encoding. -/
def stringBytes (s : String) : List Nat :=
  s.data.flatMap (fun c => (String.utf8EncodeChar c).map UInt8.toNat)

/-- Rotation to the left of a 32-bit word. -/
def rotl32 (x n : Nat) : Nat := ((x <<< n) ||| (x >>> (32 - n))) % 2 ^ 32

/-- Big-endian bytes of the low `8 * k` bits of `n`. -/
def bytesBE (k n : Nat) : List Nat :=
  (List.range k).map (fun i => (n >>> (8 * (k - 1 - i))) % 256)

/-- Padding of the message: a `0x80` byte, zeros up to 56 modulo 64, the bit length. -/
def sha1Pad (msg : List Nat) : List Nat :=
  msg ++ [128] ++ List.replicate ((119 - msg.length % 64) % 64) 0 ++ bytesBE 8 (8 * msg.length)

/-- Big-endian word of four bytes. -/
def wordBE (bs : List Nat) : Nat :=
  bs.foldl (fun acc b => acc * 256 + b % 256) 0

/-- The 80-word schedule of one 64-byte block. -/
def sha1Schedule (block : List Nat) : List Nat :=
  (List.range 64).foldl
    (fun w j =>
      let i := j + 16
      w ++ [rotl32 (w.getD (i - 3) 0 ^^^ w.getD (i - 8) 0 ^^^ w.getD (i - 14) 0 ^^^ w.getD (i - 16) 0) 1])
    ((List.range 16).map (fun i => wordBE ((block.drop (4 * i)).take 4)))

/-- Working variables `a, b, c, d, e`. -/
structure Sha1State where
  a : Nat
  b : Nat
  c : Nat
  d : Nat
  e : Nat
deriving DecidableEq, Repr

/-- Round `i` of the compression function on schedule `w`. -/
def sha1Round (w : List Nat) (s : Sha1State) (i : Nat) : Sha1State :=
  let fk : Nat × Nat :=
    if i < 20 then ((s.b &&& s.c) ||| ((s.b ^^^ 0xFFFFFFFF) &&& s.d), 0x5A827999)
    else if i < 40 then (s.b ^^^ s.c ^^^ s.d, 0x6ED9EBA1)
    else if i < 60 then ((s.b &&& s.c) ||| (s.b &&& s.d) ||| (s.c &&& s.d), 0x8F1BBCDC)
    else (s.b ^^^ s.c ^^^ s.d, 0xCA62C1D6)
  { a := (rotl32 s.a 5 + fk.1 + s.e + fk.2 + w.getD i 0) % 2 ^ 32
    b := s.a
    c := rotl32 s.b 30
    d := s.c
    e := s.d }

/-- Compression of one block into the chaining value `h`. -/
def sha1Block (h : Sha1State) (block : List Nat) : Sha1State :=
  let s := (List.range 80).foldl (sha1Round (sha1Schedule block)) h
  { a := (h.a + s.a) % 2 ^ 32
    b := (h.b + s.b) % 2 ^ 32
    c := (h.c + s.c) % 2 ^ 32
    d := (h.d + s.d) % 2 ^ 32
    e := (h.e + s.e) % 2 ^ 32 }

/-- Digest of a byte string: 20 bytes. -/
def sha1 (msg : List Nat) : List Nat :=
  let p := sha1Pad msg
  let h := (List.range (p.length / 64)).foldl
    (fun h i => sha1Block h ((p.drop (64 * i)).take 64))
    ⟨0x67452301, 0xEFCDAB89, 0x98BADCFE, 0x10325476, 0xC3D2E1F0⟩
  bytesBE 4 h.a ++ bytesBE 4 h.b ++ bytesBE 4 h.c ++ bytesBE 4 h.d ++ bytesBE 4 h.e

/-- Function `GetHash(text)`: the SHA-1 digest of `text` in lower-case hexadecimal
(`hex.EncodeToString`). -/
def GetHash (text : String) : String := hexString (sha1 (stringBytes text))

/-- The string that `GetID` hashes:
`fmt.Sprintf("%v:%v:%v:%v:%v:%v", LocalAddr.IP, LocalAddr.Name, RemoteAddr.IP,
RemoteAddr.Name, Relation.Mode, Relation.Port)`. -/
def idText (i : SockTable) : String :=
  i.LocalAddr.IP.String ++ ":" ++ i.LocalAddr.Name ++ ":" ++ i.RemoteAddr.IP.String ++ ":" ++
    i.RemoteAddr.Name ++ ":" ++ i.Relation.Mode ++ ":" ++ fmtUint i.Relation.Port

/-- Function `GetID(i)`. -/
def GetID (i : SockTable) : String := GetHash (idText i)

/-! ## Fan-out handlers (`internal/api/v1/api.go`)

The handlers are modelled from the decoded request body on. One fan-out round starts
a goroutine for each entry of `api.Peers.items`. The goroutine of peer `id` writes only
`er.items[id]` (under the lock of `er`) and the channel `connections[id]`, so the state
after the round does not depend on how the goroutines interleave; the model runs them
one after the other, in the order of the loop. -/

/-- A connection handle `*rpc.Client`, named by a number. -/
abbrev Client := Nat

/-- State shared by the handlers: `api.Peers.items` and the package variable
`connections`, whose channels have capacity 1 and are given by the number of values
they hold. -/
structure Api where
  peers : GoMap Client
  connections : GoMap Nat
deriving DecidableEq

/-- One `client.Call(method, args, nil)`, issued by the goroutine started for `peer`. -/
structure RpcCall (P : Type) where
  peer : String
  client : Client
  method : String
  args : P
deriving DecidableEq, Repr

/-- State of a fan-out round: calls issued so far, the error aggregate `er.items`
(kept by the DELETE handlers), `connections`, and the peers whose goroutine is
blocked for ever. -/
structure Round (P : Type) where
  calls : List (RpcCall P)
  er : GoMap String
  connections : GoMap Nat
  blocked : List String

/-- Statement `if len(connections[id]) < 1 { connections[id] <- 1 }`. A key that is
not in `connections` reads as the nil channel, of length 0, and a send on the nil
channel blocks for ever: the result is `none`. -/
def reportFailure (connections : GoMap Nat) (id : String) : Option (GoMap Nat) :=
  match connections.get id with
  | none => none
  | some n => if n < 1 then some (connections.set id (n + 1)) else some connections

/-- Body of the goroutine started for the entry `(id, client)`; `res id` is the error
returned by the call to that peer (`none` is `nil`) and `keepErr` tells whether the
handler stores it in `er`. -/
def peerTask {P : Type} (method : String) (args : P) (keepErr : Bool)
    (res : String → Option String) (s : Round P) (id : String) (client : Client) : Round P :=
  let s := { s with calls := s.calls ++ [⟨id, client, method, args⟩] }
  match res id with
  | none => s
  | some err =>
    let s := if keepErr then { s with er := s.er.set id err } else s
    match reportFailure s.connections id with
    | some c => { s with connections := c }
    | none => { s with blocked := s.blocked ++ [id] }

/-- Loop `for id, client := range api.Peers.items { go func(...) {...}(id, client) }`
with all its goroutines run. -/
def fanOut {P : Type} (api : Api) (method : String) (args : P) (keepErr : Bool)
    (res : String → Option String) : Round P :=
  api.peers.entries.foldl
    (fun s e => peerTask method args keepErr res s e.1 e.2)
    ⟨[], GoMap.empty, api.connections, []⟩

/-- Body of a response, `Resp` (its `Warnings` and `Data` stay empty here). -/
structure Resp where
  Status : String
  Error : String
deriving DecidableEq, Repr

/-- Answer of a handler: status code and body. -/
structure Reply where
  code : Nat
  body : Option Resp
deriving DecidableEq, Repr

/-- Validation loop of `ApiRecords` (POST) over `netstat.Data`; each failed check is a
`continue`. The records are `config.SockTable` values, of which the loop reads the two
addresses and the relation. -/
def admitRecords (data : List SockTable) : List SockTable :=
  data.foldl
    (fun records nr =>
      if nr.LocalAddr.Name = "" then records
      else if nr.LocalAddr.IP = none then records
      else if nr.RemoteAddr.Name = "" then records
      else if nr.RemoteAddr.IP = none then records
      else if nr.Relation.Port = 0 then records
      else if nr.Relation.Mode = "" then records
      else records ++ [nr])
    []

/-- Handler `ApiRecords`, method POST, from the decoded batch `netstat.Data` on: the
round, and the answer written after `wg.Wait()` (`none` when `wg.Wait()` never
returns). -/
def ApiRecordsPost (api : Api) (data : List SockTable) (res : String → Option String) :
    Round (List SockTable) × Option Reply :=
  let r := fanOut api "RPC.SetRecords" (admitRecords data) false res
  (r, if r.blocked = [] then some ⟨204, none⟩ else none)

/-- Handler `ApiNetstat`, method POST, from the decoded batch on. The answer is
written without waiting for the goroutines. -/
def ApiNetstatPost (api : Api) (data : List SockTable) (res : String → Option String) :
    Round (List SockTable) × Option Reply :=
  (fanOut api "RPC.SetNetstat" data false res, some ⟨204, none⟩)

/-- Handler `ApiTracert`, method POST, from the decoded batch on. -/
def ApiTracertPost (api : Api) (data : List SockTable) (res : String → Option String) :
    Round (List SockTable) × Option Reply :=
  (fanOut api "RPC.SetTracert" data false res, some ⟨204, none⟩)

/-- Handler `ApiStatus`, method POST, from the decoded batch on. Its goroutine names
its parameter `cli` and calls through the loop variable `client`: `loopVar id` is the
value of that variable which the goroutine started for `id` reads. -/
def ApiStatusPost (api : Api) (data : List SockTable) (res : String → Option String)
    (loopVar : String → Client) : Round (List SockTable) × Option Reply :=
  (api.peers.entries.foldl
      (fun s e => peerTask "RPC.SetStatus" data false res s e.1 (loopVar e.1))
      ⟨[], GoMap.empty, api.connections, []⟩,
    some ⟨204, none⟩)

/-- Tail of the DELETE handlers after `wg.Wait()`:
`for _, err := range er.items { 500 ...; return }` and then `200`. The loop body runs
for the first entry that `range` yields, which is the entry at position
`seed % len(er.items)` of the list of entries. -/
def deleteReply (er : GoMap String) (seed : Nat) : Reply :=
  match er.entries.get? (seed % er.len) with
  | some e => ⟨500, some ⟨"error", e.2⟩⟩
  | none => ⟨200, some ⟨"success", ""⟩⟩

/-- Handler `ApiRecords`, method DELETE, from the decoded list of keys on. -/
def ApiRecordsDelete (api : Api) (keys : List String) (res : String → Option String)
    (seed : Nat) : Round (List String) × Option Reply :=
  let r := fanOut api "RPC.DelRecords" keys true res
  (r, if r.blocked = [] then some (deleteReply r.er seed) else none)

/-- Handler `ApiExceptions`, method DELETE, from the decoded list of keys on. -/
def ApiExceptionsDelete (api : Api) (keys : List String) (res : String → Option String)
    (seed : Nat) : Round (List String) × Option Reply :=
  let r := fanOut api "RPC.DelExceptions" keys true res
  (r, if r.blocked = [] then some (deleteReply r.er seed) else none)

/-- Function `NewAPI(conf, peers, db)`: no connection handle yet, and one empty channel
of capacity 1 in `connections` for each configured peer. -/
def NewAPI (peers : List String) : Api :=
  { peers := GoMap.empty
    connections := peers.foldl (fun c id => c.set id 0) GoMap.empty }

/-- Method `ApiPeers()`, one reconciliation pass; `dial id` is the client made on the
connection that `net.DialTimeout("tcp", id, 2s)` returns, `none` when the dial fails. -/
def ApiPeers (api : Api) (dial : String → Option Client) : Api :=
  api.connections.entries.foldl
    (fun a e =>
      match dial e.1 with
      | none => a
      | some cl =>
        if (a.peers.get e.1).isNone then { a with peers := a.peers.set e.1 cl }
        else
          match a.connections.get e.1 with
          | some n =>
            if n > 0 then
              { peers := a.peers.set e.1 cl, connections := a.connections.set e.1 (n - 1) }
            else a
          | none => a)
    api

/-- Every peer with a connection handle has its channel in `connections`. `NewAPI`
establishes this and `ApiPeers`, the only writer of `api.Peers.items`, keeps it. -/
def Api.Linked (api : Api) : Prop :=
  ∀ id ∈ api.peers.keys, (api.connections.get id).isSome = true

instance (api : Api) : Decidable api.Linked := by
  unfold Api.Linked
  infer_instance

/-! ## Vocabulary for the claims on `GetID` -/

/-- The six fields that `GetID` reads. -/
inductive IdField where
  | localIP
  | localName
  | remoteIP
  | remoteName
  | mode
  | port
deriving DecidableEq, Repr

/-- Records `r` and `r'` hold the same value in every identifying field other than `f`. -/
def sameExcept (f : IdField) (r r' : SockTable) : Prop :=
  (f ≠ IdField.localIP → r.LocalAddr.IP = r'.LocalAddr.IP) ∧
  (f ≠ IdField.localName → r.LocalAddr.Name = r'.LocalAddr.Name) ∧
  (f ≠ IdField.remoteIP → r.RemoteAddr.IP = r'.RemoteAddr.IP) ∧
  (f ≠ IdField.remoteName → r.RemoteAddr.Name = r'.RemoteAddr.Name) ∧
  (f ≠ IdField.mode → r.Relation.Mode = r'.Relation.Mode) ∧
  (f ≠ IdField.port → r.Relation.Port = r'.Relation.Port)

instance (f : IdField) (r r' : SockTable) : Decidable (sameExcept f r r') := by
  unfold sameExcept
  infer_instance

/-- Records `r` and `r'` hold different values in field `f`. -/
def differsIn (f : IdField) (r r' : SockTable) : Prop :=
  match f with
  | IdField.localIP => r.LocalAddr.IP ≠ r'.LocalAddr.IP
  | IdField.localName => r.LocalAddr.Name ≠ r'.LocalAddr.Name
  | IdField.remoteIP => r.RemoteAddr.IP ≠ r'.RemoteAddr.IP
  | IdField.remoteName => r.RemoteAddr.Name ≠ r'.RemoteAddr.Name
  | IdField.mode => r.Relation.Mode ≠ r'.Relation.Mode
  | IdField.port => r.Relation.Port ≠ r'.Relation.Port

instance (f : IdField) (r r' : SockTable) : Decidable (differsIn f r r') := by
  unfold differsIn
  cases f <;> infer_instance

/-- Field `f` of `r` and of `r'` differ in what `GetID` reads of them: the value of a
name, of the mode or of the port, and the textual form `net.IP.String` of an IP. -/
def differsInText (f : IdField) (r r' : SockTable) : Prop :=
  match f with
  | IdField.localIP => r.LocalAddr.IP.String ≠ r'.LocalAddr.IP.String
  | IdField.localName => r.LocalAddr.Name ≠ r'.LocalAddr.Name
  | IdField.remoteIP => r.RemoteAddr.IP.String ≠ r'.RemoteAddr.IP.String
  | IdField.remoteName => r.RemoteAddr.Name ≠ r'.RemoteAddr.Name
  | IdField.mode => r.Relation.Mode ≠ r'.Relation.Mode
  | IdField.port => r.Relation.Port ≠ r'.Relation.Port

instance (f : IdField) (r r' : SockTable) : Decidable (differsInText f r r') := by
  unfold differsInText
  cases f <;> infer_instance

/-! ## Vocabulary and sample values for the claims on the handlers -/

/-- The required fields of an inbound record: a non-empty name and a non-nil IP on the
local and on the remote side, a non-zero port and a non-empty relation mode. -/
def hasRequiredFields (nr : SockTable) : Bool :=
  decide (nr.LocalAddr.Name ≠ "" ∧ nr.LocalAddr.IP ≠ none ∧ nr.RemoteAddr.Name ≠ "" ∧
    nr.RemoteAddr.IP ≠ none ∧ nr.Relation.Port ≠ 0 ∧ nr.Relation.Mode ≠ "")

/-- Two live peers, each with its reconnect channel, empty. -/
def twoPeers : Api :=
  { peers := ⟨[("10.0.0.7:8081", 1), ("10.0.0.8:8081", 2)], by decide⟩
    connections := ⟨[("10.0.0.7:8081", 0), ("10.0.0.8:8081", 0)], by decide⟩ }

/-- Call results of a round in which peer `10.0.0.7:8081` fails and every other peer
succeeds. -/
def firstFails (id : String) : Option String :=
  if id = "10.0.0.7:8081" then some "connection is shut down" else none

/-! ## Sample values for the closed statements -/

/-- A record between hosts `alpha` and `beta` over `tcp`. -/
def sampleRecord (ip : NetIP) (port : Nat) (status : String) (activeTime : Int) : SockTable :=
  ⟨"", ⟨ip, "alpha"⟩, ⟨some [10, 0, 0, 2], "beta"⟩, ⟨"tcp", port, "", 0, 0, 0⟩,
    ⟨"", status, "", 0, 0, activeTime⟩⟩

/-- A store of limit 1 that holds one record under key `a`. -/
def fullStore : Records :=
  ((NewCacheRecords 1 0).Set "a" (sampleRecord (some [10, 0, 0, 1]) 80 "" 0) true 100).1

/-- A store without flush interval whose only record, under key `k`, was last active
at second `2 ^ 53`. -/
def farStore : Records :=
  ((NewCacheRecords 10 0).Set "k" (sampleRecord (some [10, 0, 0, 1]) 80 "" (2 ^ 53)) false 0).1

/-- A store with a flush interval of 60 s that holds a pinned record `p` last active at
second 0, a record `old` last active at second 100 and a record `new` last active at
second 950. -/
def mixedStore : Records :=
  let s0 := NewCacheRecords 10 60000000000
  let s1 := (s0.Set "p" (sampleRecord (some [10, 0, 0, 1]) 80 "added" 0) false 0).1
  let s2 := (s1.Set "old" (sampleRecord (some [10, 0, 0, 3]) 80 "" 100) false 0).1
  (s2.Set "new" (sampleRecord (some [10, 0, 0, 4]) 80 "" 950) false 0).1

/-! ## More handlers, and sequences of calls -/

/-- Handler `ApiExceptions`, method POST, from the decoded batch `expdata.Data` on. The
declarations of `config.Exception` and `config.GetIdExp` are not part of the model: `E` is
the type of an exception, `getId` reads its field `Id`, `withId` writes it and `GetIdExp`
derives an id. -/
def ApiExceptionsPost {E : Type} (getId : E → String) (withId : E → String → E)
    (GetIdExp : E → String) (api : Api) (data : List E) (res : String → Option String) :
    Round (List E) × Option Reply :=
  (fanOut api "RPC.SetExceptions"
      (data.foldl
        (fun exceptions ex =>
          exceptions ++ [if getId ex = "" then withId ex (GetIdExp ex) else ex])
        [])
      false res,
    some ⟨204, none⟩)

/-- Fan-out round of handler `ApiExceptions`, method GET, with the query arguments
`args`: the calls and the failure reports. What the goroutines do with the lists that
the peers return is outside a `Round`. -/
def ApiExceptionsGetRound {A : Type} (api : Api) (args : A) (res : String → Option String) :
    Round A :=
  fanOut api "RPC.GetExceptions" args false res

/-- A failure report against peer `id`, the statement `reportFailure` on the shared
state; a goroutine that blocks leaves the state as it is. -/
def Api.report (api : Api) (id : String) : Api :=
  match reportFailure api.connections id with
  | some c => { api with connections := c }
  | none => api

/-- What happens to the peers' reconnect channels: a failure report against a peer, or a
reconciliation pass with the given dial results. -/
inductive PeerEvent where
  | report (id : String)
  | pass (dial : String → Option Client)

/-- Effect of one event on the shared state. -/
def Api.step (api : Api) (ev : PeerEvent) : Api :=
  match ev with
  | PeerEvent.report id => api.report id
  | PeerEvent.pass dial => ApiPeers api dial

/-- Body of the loop of `ApiPeers` for one peer, on the handle `p` and the channel `c`
of that peer: `d` is the client of the dial, `none` when the dial fails. -/
def dialOutcome (p : Option Client) (c : Option Nat) (d : Option Client) :
    Option Client × Option Nat :=
  match d with
  | none => (p, c)
  | some cl =>
    if p.isNone then (some cl, c)
    else
      match c with
      | some n => if n > 0 then (some cl, some (n - 1)) else (p, c)
      | none => (p, c)

/-- Body of the loop of `ApiPeers`, on the whole state and for the entry `e` of
`connections`. -/
def peersStep (dial : String → Option Client) (a : Api) (e : String × Nat) : Api :=
  match dial e.1 with
  | none => a
  | some cl =>
    if (a.peers.get e.1).isNone then { a with peers := a.peers.set e.1 cl }
    else
      match a.connections.get e.1 with
      | some n =>
        if n > 0 then
          { peers := a.peers.set e.1 cl, connections := a.connections.set e.1 (n - 1) }
        else a
      | none => a

/-- A call of a method that writes to the store. -/
inductive StoreOp where
  | set (key : String) (val : SockTable) (active : Bool) (now : Int)
  | del (key : String)
  | sweep (clock : String → Int)

/-- State of the store after the call `op`; the error of `Set` and the flags of `Del`
and `DelExpiredItems` are dropped. -/
def Records.apply (t : Records) (op : StoreOp) : Records :=
  match op with
  | StoreOp.set key val active now => (t.Set key val active now).1
  | StoreOp.del key => (t.Del key).1
  | StoreOp.sweep clock => (t.DelExpiredItems clock).1

/-- The string `s` has no `:` in it. -/
def noColon (s : String) : Prop := ':' ∉ s.data

instance (s : String) : Decidable (noColon s) := by
  unfold noColon
  infer_instance

/-- None of the five fields that `GetID` prints before a separator, the two IPs in
their textual form, the two names and the mode, has a `:` in it. -/
def printsNoColon (r : SockTable) : Prop :=
  noColon r.LocalAddr.IP.String ∧ noColon r.LocalAddr.Name ∧
  noColon r.RemoteAddr.IP.String ∧ noColon r.RemoteAddr.Name ∧ noColon r.Relation.Mode

instance (r : SockTable) : Decidable (printsNoColon r) := by
  unfold printsNoColon
  infer_instance

/-- A reconnect channel after a failure report: an empty channel takes the value, a
channel that holds one keeps it. -/
def afterReport (n : Nat) : Nat := if n < 1 then n + 1 else n

/-- The values of the six identifying fields of `r` and `r'` are the same. -/
def sameTuple (r r' : SockTable) : Prop :=
  r.LocalAddr.IP = r'.LocalAddr.IP ∧ r.LocalAddr.Name = r'.LocalAddr.Name ∧
  r.RemoteAddr.IP = r'.RemoteAddr.IP ∧ r.RemoteAddr.Name = r'.RemoteAddr.Name ∧
  r.Relation.Mode = r'.Relation.Mode ∧ r.Relation.Port = r'.Relation.Port

instance (r r' : SockTable) : Decidable (sameTuple r r') := by
  unfold sameTuple
  infer_instance

/-- A record with the given addresses, names and mode, port 80. -/
def tupleRecord (lip : NetIP) (lname : String) (rip : NetIP) (rname mode : String) : SockTable :=
  ⟨"", ⟨lip, lname⟩, ⟨rip, rname⟩, ⟨mode, 80, "", 0, 0, 0⟩, ⟨"", "", "", 0, 0, 0⟩⟩

/-- Two live peers, the first with a pending reconnect request. -/
def pendingPeers : Api :=
  { peers := ⟨[("10.0.0.7:8081", 1), ("10.0.0.8:8081", 2)], by decide⟩
    connections := ⟨[("10.0.0.7:8081", 1), ("10.0.0.8:8081", 0)], by decide⟩ }

/-! ## Lemmas on `GoMap` -/

namespace GoMap

variable {α : Type}

theorem find_eq_none_of_not_mem_keys (l : List (String × α)) (k : String)
    (h : k ∉ l.map Prod.fst) : l.find? (fun e => e.1 = k) = none := by
  rw [List.find?_eq_none]
  intro e he hk
  exact h (List.mem_map.2 ⟨e, he, by simpa using hk⟩)

theorem get_eq_none_iff (m : GoMap α) (k : String) : m.get k = none ↔ k ∉ m.keys := by
  unfold get keys
  rw [Option.map_eq_none', List.find?_eq_none]
  constructor
  · intro h hk
    obtain ⟨e, he, rfl⟩ := List.mem_map.1 hk
    exact h e he (by simp)
  · intro h e he hk
    exact h (List.mem_map.2 ⟨e, he, by simpa using hk⟩)

theorem get_set_self (m : GoMap α) (k : String) (v : α) : (m.set k v).get k = some v := by
  simp [get, set]

theorem find_filter_ne (l : List (String × α)) (k k' : String) (h : k' ≠ k) :
    (l.filter (fun e => e.1 ≠ k)).find? (fun e => e.1 = k') = l.find? (fun e => e.1 = k') := by
  rw [List.find?_filter]
  congr 1
  funext a
  by_cases ha : a.1 = k'
  · simp [ha, h]
  · simp [ha]

theorem get_set_ne (m : GoMap α) (k k' : String) (v : α) (h : k' ≠ k) :
    (m.set k v).get k' = m.get k' := by
  have hk : ¬ k = k' := fun e => h e.symm
  unfold get set
  simp only [List.find?_cons, hk, decide_False]
  rw [find_filter_ne _ _ _ h]

theorem get_delete_self (m : GoMap α) (k : String) : (m.delete k).get k = none := by
  unfold get delete
  rw [Option.map_eq_none', List.find?_eq_none]
  intro e he
  have := (List.mem_filter.1 he).2
  simpa using this

theorem get_delete_ne (m : GoMap α) (k k' : String) (h : k' ≠ k) :
    (m.delete k).get k' = m.get k' := by
  unfold get delete
  simp only []
  rw [find_filter_ne _ _ _ h]

theorem delete_eq_self (m : GoMap α) (k : String) (h : m.get k = none) : m.delete k = m := by
  have hk := (get_eq_none_iff m k).1 h
  cases m with
  | mk entries nodup =>
    simp only [delete, mk.injEq]
    rw [List.filter_eq_self]
    intro e he
    have : e.1 ≠ k := fun h' => hk (List.mem_map.2 ⟨e, he, h'⟩)
    simpa using this

theorem find_of_mem (l : List (String × α)) (h : (l.map Prod.fst).Nodup) (k : String) (v : α)
    (hm : (k, v) ∈ l) : l.find? (fun e => e.1 = k) = some (k, v) := by
  induction l with
  | nil => cases hm
  | cons e l ih =>
    rw [List.map_cons, List.nodup_cons] at h
    rcases List.mem_cons.1 hm with he | hl
    · subst he
      simp
    · have hne : ¬ e.1 = k := by
        intro hk
        exact h.1 (List.mem_map.2 ⟨(k, v), hl, hk.symm⟩)
      simp [List.find?_cons, hne, ih h.2 hl]

theorem get_eq_some_iff (m : GoMap α) (k : String) (v : α) :
    m.get k = some v ↔ (k, v) ∈ m.entries := by
  constructor
  · intro h
    unfold get at h
    obtain ⟨e, he, hv⟩ := Option.map_eq_some'.1 h
    have hmem := List.mem_of_find?_eq_some he
    have hk := List.find?_some he
    have hk' : e.1 = k := by simpa using hk
    cases e with
    | mk a b =>
      simp only at hk' hv
      subst hk' hv
      exact hmem
  · intro h
    simp [get, find_of_mem m.entries m.nodup k v h]

end GoMap

/-! ## The store: `Set`, `Get`, `Del` -/

namespace Records

theorem Set_eq (t : Records) (key : String) (val : SockTable) (active : Bool) (now : Int) :
    t.Set key val active now =
      if t.items.get key = none ∧ (t.items.len : Int) ≥ t.limit then
        (t, some ("cache limit exceeded, id: " ++ key))
      else
        (⟨t.items.set key (if active then
            ⟨val.Id, val.LocalAddr, val.RemoteAddr, val.Relation,
              ⟨val.Options.Service, val.Options.Status, val.Options.Command,
                val.Options.Timeout, val.Options.MaxRespTime, now⟩⟩ else val),
          t.limit, t.flush⟩, none) := by
  unfold Set
  cases h : t.items.get key <;> by_cases hl : (t.items.len : Int) ≥ t.limit <;>
    cases active <;> simp [hl]

end Records

/-- Claim C1. `Records.Set` returns an error if and only if the key is not in the store
and the number of stored entries is at least `limit`, whatever the record, the
`active` flag and the clock are. In particular, in a store made with `limit = 2`, setting
`a` and `b` succeeds, setting a third key `c` fails, and setting `a` again succeeds. -/
theorem Records.Set_error_iff (t : Records) (key : String) (val : SockTable) (active : Bool)
    (now : Int) :
    ((t.Set key val active now).2 ≠ none ↔
        (t.items.get key = none ∧ (t.items.len : Int) ≥ t.limit)) ∧
    (∀ (flush : Int) (recA recB recC recA2 : SockTable) (n1 n2 n3 n4 : Int),
      let s0 := NewCacheRecords 2 flush
      let s1 := s0.Set "a" recA true n1
      let s2 := s1.1.Set "b" recB true n2
      let s3 := s2.1.Set "c" recC true n3
      let s4 := s3.1.Set "a" recA2 true n4
      s1.2 = none ∧ s2.2 = none ∧ s3.2 = some "cache limit exceeded, id: c" ∧ s4.2 = none) := by
  refine ⟨?_, ?_⟩
  · rw [Records.Set_eq]
    split <;> simp_all
  · intro flush recA recB recC recA2 n1 n2 n3 n4
    simp [Records.Set, NewCacheRecords, GoMap.get, GoMap.set, GoMap.len, GoMap.empty]

/-- Claim C2. When `Records.Set` returns an error the store is the one it was before the
call: same entries, same records (no `ActiveTime` stamped), same `limit` and `flush`. -/
theorem Records.Set_error_unchanged (t : Records) (key : String) (val : SockTable)
    (active : Bool) (now : Int) (h : (t.Set key val active now).2 ≠ none) :
    (t.Set key val active now).1 = t := by
  rw [Records.Set_eq] at h ⊢
  split
  · rfl
  · rename_i hc
    simp [hc] at h

/-- Claim C2 at `fullStore`: setting a second key fails and leaves the store as it
was. -/
theorem Records.Set_error_unchanged_witness :
    (fullStore.Set "b" (sampleRecord none 0 "" 0) true 200).2 ≠ none ∧
    (fullStore.Set "b" (sampleRecord none 0 "" 0) true 200).1 = fullStore :=
  ⟨by decide, Records.Set_error_unchanged fullStore "b" _ true 200 (by decide)⟩

/-- Claim C3. If `Set(id, r, true)` called at clock reading `now` succeeds, the following
`Get(id)` returns `found = true` and the record `r` with `Options.ActiveTime` replaced
by `now`, and `Get` of every other key returns what it returned before. -/
theorem Records.Get_after_Set (t : Records) (id : String) (r : SockTable) (now : Int)
    (h : (t.Set id r true now).2 = none) :
    (t.Set id r true now).1.Get id =
        ({ r with Options := { r.Options with ActiveTime := now } }, true) ∧
    ∀ k, k ≠ id → (t.Set id r true now).1.Get k = t.Get k := by
  rw [Records.Set_eq] at h ⊢
  split at h
  · cases h
  · rename_i hc
    rw [if_neg hc]
    refine ⟨?_, ?_⟩
    · simp [Records.Get, GoMap.get_set_self]
    · intro k hk
      simp [Records.Get, GoMap.get_set_ne _ _ _ _ hk]

/-- Claim C3 at `fullStore`: overwriting key `a` at second 200 succeeds and `Get`
returns the new record stamped with 200. -/
theorem Records.Get_after_Set_witness :
    (fullStore.Set "a" (sampleRecord (some [10, 0, 0, 9]) 443 "" 7) true 200).2 = none ∧
    (fullStore.Set "a" (sampleRecord (some [10, 0, 0, 9]) 443 "" 7) true 200).1.Get "a" =
      (sampleRecord (some [10, 0, 0, 9]) 443 "" 200, true) :=
  ⟨by decide,
    (Records.Get_after_Set fullStore "a" (sampleRecord (some [10, 0, 0, 9]) 443 "" 7) 200
      (by decide)).1⟩

/-- Claim C5, as stated, fails: `Del` of a key that an empty store does not hold
returns `true`. -/
theorem Records.Del_counterexample :
    (NewCacheRecords 1 0).items.get "a" = none ∧ ((NewCacheRecords 1 0).Del "a").2 = true := by
  decide

/-- Claim C5, as amended. `Records.Del(id)` returns `true` whether or not an entry for
`id` existed; after it `id` is not in the store and every other key maps to the record
it mapped to before; deleting a missing id leaves the store unchanged. -/
theorem Records.Del_spec (t : Records) (id : String) :
    (t.Del id).2 = true ∧
    (t.Del id).1.items.get id = none ∧
    (∀ k, k ≠ id → (t.Del id).1.items.get k = t.items.get k) ∧
    (t.items.get id = none → (t.Del id).1 = t) := by
  refine ⟨rfl, GoMap.get_delete_self _ _, fun k hk => GoMap.get_delete_ne _ _ _ hk, ?_⟩
  intro h
  simp [Records.Del, GoMap.delete_eq_self _ _ h]

/-! ## The expiry sweep -/

theorem f64DropBits_small (fuel m : Nat) (h : m < 2 ^ 53) : f64DropBits fuel m = 0 := by
  cases fuel with
  | zero => rfl
  | succ n =>
    rw [f64DropBits]
    exact if_pos h

theorem f64DropBits_quot (fuel m : Nat) (h : 2 ^ 53 ≤ m) :
    2 ^ 52 ≤ m / 2 ^ f64DropBits fuel m := by
  induction fuel generalizing m with
  | zero =>
    simp only [f64DropBits, pow_zero, Nat.div_one]
    omega
  | succ n ih =>
    have hm : ¬ m < 2 ^ 53 := by omega
    simp only [f64DropBits, hm, if_false]
    have hp : 2 ^ (f64DropBits n (m / 2) + 1) = 2 * 2 ^ f64DropBits n (m / 2) := by ring
    rw [hp, ← Nat.div_div_eq_div_mul]
    by_cases h2 : 2 ^ 53 ≤ m / 2
    · exact ih _ h2
    · rw [f64DropBits_small n (m / 2) (by omega)]
      simp only [pow_zero, Nat.div_one]
      omega

theorem f64RoundNat_small (m : Nat) (h : m ≤ 2 ^ 53) : f64RoundNat m = m := by
  rcases Nat.lt_or_eq_of_le h with h | h
  · simp [f64RoundNat, f64DropBits_small m m h]
  · subst h
    decide

theorem f64RoundNat_large (m : Nat) (h : 2 ^ 53 ≤ m) : 2 ^ 53 ≤ f64RoundNat m := by
  unfold f64RoundNat
  simp only []
  split
  · exact h
  · rename_i he
    have hq := f64DropBits_quot m m h
    have hpow : 2 ≤ 2 ^ f64DropBits m m := by
      calc 2 = 2 ^ 1 := rfl
        _ ≤ 2 ^ f64DropBits m m := Nat.pow_le_pow_right (by decide) (by omega)
    have hlow : 2 ^ 53 ≤ m / 2 ^ f64DropBits m m * 2 ^ f64DropBits m m := by
      calc 2 ^ 53 = 2 ^ 52 * 2 := by norm_num
        _ ≤ m / 2 ^ f64DropBits m m * 2 ^ f64DropBits m m := Nat.mul_le_mul hq hpow
    split
    · calc 2 ^ 53 ≤ m / 2 ^ f64DropBits m m * 2 ^ f64DropBits m m := hlow
        _ ≤ (m / 2 ^ f64DropBits m m + 1) * 2 ^ f64DropBits m m :=
          Nat.mul_le_mul_right _ (Nat.le_succ _)
    · exact hlow

theorem f64OfInt_exact (x : Int) (h1 : -2 ^ 53 ≤ x) (h2 : x ≤ 2 ^ 53) : f64OfInt x = x := by
  have hn : x.natAbs ≤ 2 ^ 53 := by omega
  unfold f64OfInt
  rw [f64RoundNat_small _ hn]
  split <;> omega

theorem f64OfInt_ge (x : Int) (h : 2 ^ 53 ≤ x) : 2 ^ 53 ≤ f64OfInt x := by
  have hn : 2 ^ 53 ≤ x.natAbs := by omega
  have := f64RoundNat_large _ hn
  unfold f64OfInt
  split <;> omega

theorem f64OfInt_le (x : Int) (h : x ≤ -2 ^ 53) : f64OfInt x ≤ -2 ^ 53 := by
  have hn : 2 ^ 53 ≤ x.natAbs := by omega
  have := f64RoundNat_large _ hn
  unfold f64OfInt
  split <;> omega

/-- For a clock reading between `-2 ^ 52` and `2 ^ 53` and a whole number of seconds `f`
between 0 and `2 ^ 40`, the `float64` comparison of the sweep is the comparison of
integers. -/
theorem f64_test_exact (a f n : Int) (hf0 : 0 ≤ f) (hf : f ≤ 2 ^ 40) (hn0 : -2 ^ 52 ≤ n)
    (hn : n ≤ 2 ^ 53) :
    f64Add (f64OfInt a) (f64OfInt f) < f64OfInt n ↔ a + f < n := by
  rw [f64OfInt_exact f (by omega) (by omega), f64OfInt_exact n (by omega) hn]
  unfold f64Add
  by_cases h1 : 2 ^ 53 ≤ a
  · have hA := f64OfInt_ge a h1
    have hS := f64OfInt_ge (f64OfInt a + f) (by omega)
    omega
  · by_cases h2 : a ≤ -2 ^ 53
    · have hA := f64OfInt_le a h2
      by_cases h3 : f64OfInt a + f ≤ -2 ^ 53
      · have hS := f64OfInt_le _ h3
        omega
      · rw [f64OfInt_exact _ (by omega) (by omega)]
        omega
    · rw [f64OfInt_exact a (by omega) (by omega)]
      by_cases h3 : 2 ^ 53 ≤ a + f
      · have hS := f64OfInt_ge _ h3
        omega
      · rw [f64OfInt_exact _ (by omega) (by omega)]

/-- With a flush interval of `flush ≥ 0` nanoseconds, the whole seconds the code compares
give the same verdict as the exact, fractional number of seconds `flush / 10 ^ 9`. -/
theorem whole_seconds_exact (a flush n : Int) (h0 : 0 ≤ flush) :
    a + Int.tdiv flush timeSecond < n ↔ (a : ℚ) + (flush : ℚ) / 1000000000 < (n : ℚ) := by
  unfold timeSecond
  rw [Int.tdiv_eq_ediv h0 (by norm_num)]
  have key : flush / 1000000000 < n - a ↔ flush < (n - a) * 1000000000 :=
    Int.ediv_lt_iff_lt_mul (by norm_num)
  have hq : (a : ℚ) + (flush : ℚ) / 1000000000 < (n : ℚ) ↔
      (flush : ℚ) < ((n - a) * 1000000000 : ℚ) := by
    rw [← lt_sub_iff_add_lt', div_lt_iff₀ (by norm_num)]
  rw [hq]
  have hcast : ((flush : ℚ) < ((n - a) * 1000000000 : ℚ)) ↔ flush < (n - a) * 1000000000 := by
    exact_mod_cast Iff.rfl
  rw [hcast, ← key]
  omega

theorem expired_iff (flush : Int) (v : SockTable) (now : Int) (h0 : 0 ≤ flush)
    (h63 : flush < 2 ^ 63) (hn0 : -2 ^ 52 ≤ now) (hn : now ≤ 2 ^ 53) :
    expired flush v now = true ↔
      (v.Options.ActiveTime : ℚ) + (flush : ℚ) / 1000000000 < (now : ℚ) := by
  unfold expired
  rw [decide_eq_true_iff, ← whole_seconds_exact _ _ _ h0]
  have hf0 : 0 ≤ Int.tdiv flush timeSecond := by
    unfold timeSecond
    rw [Int.tdiv_eq_ediv h0 (by norm_num)]
    omega
  have hf : Int.tdiv flush timeSecond ≤ 2 ^ 40 := by
    unfold timeSecond
    rw [Int.tdiv_eq_ediv h0 (by norm_num)]
    omega
  exact f64_test_exact _ _ _ hf0 hf hn0 hn

theorem GoMap.get_foldl_delete {α : Type} (c : String × α → Bool) (l : List (String × α))
    (m : GoMap α) (k : String) :
    (l.foldl (fun items e => if c e = true then items.delete e.1 else items) m).get k =
      if ∃ e ∈ l, e.1 = k ∧ c e = true then none else m.get k := by
  induction l generalizing m with
  | nil => simp
  | cons e l ih =>
    rw [List.foldl_cons, ih]
    by_cases hl : ∃ e' ∈ l, e'.1 = k ∧ c e' = true
    · have : ∃ e' ∈ e :: l, e'.1 = k ∧ c e' = true := by
        obtain ⟨e', he', h'⟩ := hl
        exact ⟨e', List.mem_cons_of_mem _ he', h'⟩
      rw [if_pos hl, if_pos this]
    · rw [if_neg hl]
      by_cases he : e.1 = k ∧ c e = true
      · have : ∃ e' ∈ e :: l, e'.1 = k ∧ c e' = true := ⟨e, List.mem_cons_self _ _, he⟩
        rw [if_pos this, if_pos he.2, ← he.1]
        exact GoMap.get_delete_self _ _
      · have : ¬ ∃ e' ∈ e :: l, e'.1 = k ∧ c e' = true := by
          rintro ⟨e', he', h'⟩
          rcases List.mem_cons.1 he' with rfl | hmem
          · exact he h'
          · exact hl ⟨e', hmem, h'⟩
        rw [if_neg this]
        by_cases hc : c e = true
        · have hk : k ≠ e.1 := fun h => he ⟨h.symm, hc⟩
          rw [if_pos hc, GoMap.get_delete_ne _ _ _ hk]
        · rw [if_neg hc]

theorem Records.DelExpiredItems_items (t : Records) (clock : String → Int) :
    (t.DelExpiredItems clock).1.items =
      t.items.entries.foldl
        (fun items e =>
          if (!decide (e.2.Options.Status = "added") && expired t.flush e.2 (clock e.1)) = true
          then items.delete e.1 else items)
        t.items := by
  unfold Records.DelExpiredItems
  simp only []
  congr 1
  funext items e
  by_cases h1 : e.2.Options.Status = "added" <;>
    by_cases h2 : expired t.flush e.2 (clock e.1) = true <;> simp [h1, h2]

theorem Records.get_DelExpiredItems (t : Records) (clock : String → Int) (k : String)
    (v : SockTable) :
    (t.DelExpiredItems clock).1.items.get k = some v ↔
      (t.items.get k = some v ∧
        (v.Options.Status = "added" ∨ expired t.flush v (clock k) = false)) := by
  rw [Records.DelExpiredItems_items, GoMap.get_foldl_delete
    (fun e => !decide (e.2.Options.Status = "added") && expired t.flush e.2 (clock e.1))]
  constructor
  · intro h
    split at h
    · cases h
    · rename_i hne
      refine ⟨h, ?_⟩
      by_contra hc
      rw [not_or] at hc
      apply hne
      refine ⟨(k, v), (GoMap.get_eq_some_iff _ _ _).1 h, rfl, ?_⟩
      simp [hc.1]
      simpa using hc.2
  · rintro ⟨hget, hkeep⟩
    have hne : ¬ ∃ e ∈ t.items.entries, e.1 = k ∧
        (!decide (e.2.Options.Status = "added") && expired t.flush e.2 (clock e.1)) = true := by
      rintro ⟨e, he, hk, hc⟩
      cases e with
      | mk a b =>
        simp only at hk
        subst hk
        have hb := (GoMap.get_eq_some_iff _ _ _).2 he
        rw [hget] at hb
        cases hb
        simp only [Bool.and_eq_true, Bool.not_eq_true', decide_eq_false_iff_not] at hc
        rcases hkeep with h | h
        · exact hc.1 h
        · rw [h] at hc
          exact Bool.false_ne_true hc.2
    rw [if_neg hne]
    exact hget

/-- Past second `2 ^ 53` a `float64` no longer tells one second from the next: with
flush interval 0 and a clock at second `2 ^ 53 + 1`, the record of `farStore`, not pinned
and last active at second `2 ^ 53`, is older than the flush interval and yet survives
the sweep. No clock reads such a time; the statement on the sweep bounds the readings. -/
theorem Records.DelExpiredItems_past_f64 :
    0 ≤ farStore.flush ∧
    farStore.items.get "k" = some (sampleRecord (some [10, 0, 0, 1]) 80 "" (2 ^ 53)) ∧
    (sampleRecord (some [10, 0, 0, 1]) 80 "" (2 ^ 53)).Options.Status ≠ "added" ∧
    (((sampleRecord (some [10, 0, 0, 1]) 80 "" (2 ^ 53)).Options.ActiveTime : ℚ)
        + (farStore.flush : ℚ) / 1000000000 < (((2 ^ 53 + 1 : Int)) : ℚ)) ∧
    (farStore.DelExpiredItems (fun _ => 2 ^ 53 + 1)).1.items.get "k" =
      some (sampleRecord (some [10, 0, 0, 1]) 80 "" (2 ^ 53)) := by
  refine ⟨by decide, by decide, by decide, ?_, by decide⟩
  have h1 : (sampleRecord (some [10, 0, 0, 1]) 80 "" (2 ^ 53)).Options.ActiveTime = 2 ^ 53 := rfl
  have h2 : farStore.flush = 0 := rfl
  rw [h1, h2]
  norm_num

/-- Claim C4. For every store with a non-negative flush interval (a `time.Duration`, so
below `2 ^ 63` ns) and every current time `now` that a clock reads (a whole number of
seconds between `-2 ^ 52` and `2 ^ 53`, some 140 million years either side of 1970), the
store after `DelExpiredItems` holds exactly the entries it held before that are pinned
(`Options.Status = "added"`, whatever their `ActiveTime`) or satisfy
`ActiveTime + flush >= now`, with the record unchanged; every entry with another status
and `ActiveTime + flush < now` is gone. `flush` is the exact, possibly fractional number
of seconds `t.flush / 10 ^ 9`, whereas the code compares whole seconds, in `float64`. -/
theorem Records.DelExpiredItems_spec (t : Records) (now : Int) (hflush : 0 ≤ t.flush)
    (hdur : t.flush < 2 ^ 63) (hnow0 : -2 ^ 52 ≤ now) (hnow : now ≤ 2 ^ 53) (k : String)
    (v : SockTable) :
    ((t.DelExpiredItems (fun _ => now)).1.items.get k = some v ↔
      (t.items.get k = some v ∧
        (v.Options.Status = "added" ∨
          (now : ℚ) ≤ (v.Options.ActiveTime : ℚ) + (t.flush : ℚ) / 1000000000))) ∧
    ((t.DelExpiredItems (fun _ => now)).1.items.get k = none ↔
      (t.items.get k = none ∨ ∃ w, t.items.get k = some w ∧ w.Options.Status ≠ "added" ∧
          (w.Options.ActiveTime : ℚ) + (t.flush : ℚ) / 1000000000 < (now : ℚ))) := by
  have hkeep : ∀ w : SockTable, expired t.flush w now = false ↔
      (now : ℚ) ≤ (w.Options.ActiveTime : ℚ) + (t.flush : ℚ) / 1000000000 := by
    intro w
    rw [← not_lt, ← expired_iff t.flush w now hflush hdur hnow0 hnow]
    simp
  have hsome := fun w => Records.get_DelExpiredItems t (fun _ => now) k w
  refine ⟨?_, ?_⟩
  · rw [hsome v, hkeep v]
  · constructor
    · intro hnone
      cases hk : t.items.get k with
      | none => exact Or.inl rfl
      | some w =>
        refine Or.inr ⟨w, rfl, ?_⟩
        have hw := (hsome w).not.1 (by rw [hnone]; simp)
        rw [not_and, not_or] at hw
        have := hw hk
        refine ⟨this.1, ?_⟩
        rw [← not_le, ← hkeep w]
        exact this.2
    · intro h
      rcases h with h | ⟨w, hw, hst, hlt⟩
      · cases hk : (t.DelExpiredItems (fun _ => now)).1.items.get k with
        | none => rfl
        | some u =>
          have := ((hsome u).1 hk).1
          rw [h] at this
          cases this
      · cases hk : (t.DelExpiredItems (fun _ => now)).1.items.get k with
        | none => rfl
        | some u =>
          have hu := (hsome u).1 hk
          rw [hw] at hu
          have huw : w = u := Option.some.inj hu.1
          subst huw
          rcases hu.2 with h | h
          · exact absurd h hst
          · rw [hkeep w] at h
            exact absurd hlt (not_lt.2 h)

/-- Claim C4 at `mixedStore` with the clock at second 1000: the pinned and the young
record are kept, the old one is gone. -/
theorem Records.DelExpiredItems_spec_witness :
    (0 ≤ mixedStore.flush ∧ mixedStore.flush < 2 ^ 63 ∧ (-2 ^ 52 : Int) ≤ 1000 ∧
      (1000 : Int) ≤ 2 ^ 53) ∧
    ((mixedStore.DelExpiredItems (fun _ => 1000)).1.items.get "old" = none ↔
      (mixedStore.items.get "old" = none ∨
        ∃ w, mixedStore.items.get "old" = some w ∧ w.Options.Status ≠ "added" ∧
          (w.Options.ActiveTime : ℚ) + (mixedStore.flush : ℚ) / 1000000000 <
            ((1000 : Int) : ℚ))) ∧
    (mixedStore.DelExpiredItems (fun _ => 1000)).1.items.keys = ["new", "p"] :=
  ⟨⟨by decide, by decide, by decide, by decide⟩,
    (Records.DelExpiredItems_spec mixedStore 1000 (by decide) (by decide) (by decide)
      (by decide) "old" (sampleRecord (some [10, 0, 0, 3]) 80 "" 100)).2,
    by decide⟩

/-! ## Record identity -/

theorem digitChar_val (d : Nat) (h : d < 10) : (Nat.digitChar d).toNat - 48 = d := by
  interval_cases d <;> rfl

theorem digitsBE_val (fuel n : Nat) (h : n < fuel) :
    (digitsBE 10 fuel n).foldl (fun acc c => acc * 10 + (c.toNat - 48)) 0 = n := by
  induction fuel generalizing n with
  | zero => omega
  | succ fuel ih =>
    rw [digitsBE]
    split
    · rename_i hlt
      simp [digitChar_val n hlt]
    · rename_i hge
      rw [List.foldl_append, ih (n / 10) (by omega)]
      simp only [List.foldl_cons, List.foldl_nil]
      rw [digitChar_val (n % 10) (Nat.mod_lt _ (by decide))]
      omega

theorem fmtUint_injective (a b : Nat) (h : fmtUint a = fmtUint b) : a = b := by
  unfold fmtUint at h
  have hd : digitsBE 10 (a + 1) a = digitsBE 10 (b + 1) b := congrArg String.data h
  have := congrArg (List.foldl (fun acc c => acc * 10 + (c.toNat - 48)) 0) hd
  rwa [digitsBE_val _ _ (Nat.lt_succ_self a), digitsBE_val _ _ (Nat.lt_succ_self b)] at this

theorem str_append_left_cancel (p a b : String) (h : p ++ a = p ++ b) : a = b := by
  have := congrArg String.data h
  simp only [String.data_append, List.append_cancel_left_eq] at this
  exact String.ext this

theorem str_append_right_cancel (a b s : String) (h : a ++ s = b ++ s) : a = b := by
  have := congrArg String.data h
  simp only [String.data_append, List.append_cancel_right_eq] at this
  exact String.ext this

theorem idText_ne (f : IdField) (r r' : SockTable) (hs : sameExcept f r r')
    (hd : differsInText f r r') : idText r ≠ idText r' := by
  obtain ⟨h1, h2, h3, h4, h5, h6⟩ := hs
  intro h
  unfold idText at h
  cases f
  · rw [h2 (by decide), h3 (by decide), h4 (by decide), h5 (by decide), h6 (by decide)] at h
    simp only [String.append_assoc] at h
    exact hd (str_append_right_cancel _ _ _ h)
  · rw [h1 (by decide), h3 (by decide), h4 (by decide), h5 (by decide), h6 (by decide)] at h
    simp only [String.append_assoc] at h
    exact hd (str_append_right_cancel _ _ _
      (str_append_left_cancel _ _ _ (str_append_left_cancel _ _ _ h)))
  · rw [h1 (by decide), h2 (by decide), h4 (by decide), h5 (by decide), h6 (by decide)] at h
    simp only [String.append_assoc] at h
    exact hd (str_append_right_cancel _ _ _
      (str_append_left_cancel _ _ _ (str_append_left_cancel _ _ _
        (str_append_left_cancel _ _ _ (str_append_left_cancel _ _ _ h)))))
  · rw [h1 (by decide), h2 (by decide), h3 (by decide), h5 (by decide), h6 (by decide)] at h
    simp only [String.append_assoc] at h
    exact hd (str_append_right_cancel _ _ _
      (str_append_left_cancel _ _ _ (str_append_left_cancel _ _ _
        (str_append_left_cancel _ _ _ (str_append_left_cancel _ _ _
          (str_append_left_cancel _ _ _ (str_append_left_cancel _ _ _ h)))))))
  · rw [h1 (by decide), h2 (by decide), h3 (by decide), h4 (by decide), h6 (by decide)] at h
    simp only [String.append_assoc] at h
    exact hd (str_append_right_cancel _ _ _
      (str_append_left_cancel _ _ _ (str_append_left_cancel _ _ _
        (str_append_left_cancel _ _ _ (str_append_left_cancel _ _ _
          (str_append_left_cancel _ _ _ (str_append_left_cancel _ _ _
            (str_append_left_cancel _ _ _ (str_append_left_cancel _ _ _ h)))))))))
  · rw [h1 (by decide), h2 (by decide), h3 (by decide), h4 (by decide), h5 (by decide)] at h
    simp only [String.append_assoc] at h
    exact hd (fmtUint_injective _ _
      (str_append_left_cancel _ _ _ (str_append_left_cancel _ _ _
        (str_append_left_cancel _ _ _ (str_append_left_cancel _ _ _
          (str_append_left_cancel _ _ _ (str_append_left_cancel _ _ _
            (str_append_left_cancel _ _ _ (str_append_left_cancel _ _ _
              (str_append_left_cancel _ _ _ (str_append_left_cancel _ _ _ h)))))))))))

set_option maxRecDepth 100000

/-- The model of `GetHash` on the test vector `abc` of SHA-1. -/
theorem GetHash_abc : GetHash "abc" = "a9993e364706816aba3e25717850c26c9cd0d89d" := by
  decide

theorem bytesBE_lt (k n x : Nat) (h : x ∈ bytesBE k n) : x < 256 := by
  unfold bytesBE at h
  obtain ⟨i, _, rfl⟩ := List.mem_map.1 h
  exact Nat.mod_lt _ (by decide)

theorem sha1_bytes (msg : List Nat) :
    (sha1 msg).length = 20 ∧ ∀ x ∈ sha1 msg, x < 256 := by
  unfold sha1
  refine ⟨by simp [bytesBE], ?_⟩
  intro x hx
  simp only [List.mem_append] at hx
  rcases hx with (((h | h) | h) | h) | h <;> exact bytesBE_lt _ _ _ h

theorem digests_finite : {l : List Nat | l.length = 20 ∧ ∀ x ∈ l, x < 256}.Finite := by
  refine Set.Finite.subset
    ((List.finite_length_eq (Fin 256) 20).image (List.map Fin.val)) ?_
  rintro l ⟨hlen, hlt⟩
  refine ⟨l.pmap (fun x h => (⟨x, h⟩ : Fin 256)) hlt, ?_, ?_⟩
  · simp [hlen]
  · rw [List.map_pmap]
    simp

/-- The ids are the strings `hexString d` of the 20-byte digests `d`: finitely many. -/
theorem GetHash_range_finite : (Set.range GetHash).Finite := by
  refine Set.Finite.subset (digests_finite.image hexString) ?_
  rintro s ⟨text, rfl⟩
  exact ⟨sha1 (stringBytes text), sha1_bytes _, rfl⟩

/-- Counting: among the records that differ from each other in the local name only, two
have the same id. -/
theorem GetID_collision_exists :
    ∃ r r' : SockTable, sameExcept IdField.localName r r' ∧
      differsIn IdField.localName r r' ∧ GetID r = GetID r' := by
  obtain ⟨k, _, k', _, hne, heq⟩ :=
    Set.infinite_univ.exists_ne_map_eq_of_mapsTo
      (f := fun k : Nat =>
        GetID (tupleRecord none (String.mk (List.replicate k 'a')) none "" ""))
      (t := Set.range GetHash) (fun k _ => Set.mem_range_self _) GetHash_range_finite
  refine ⟨_, _, ?_, ?_, heq⟩
  · simp [sameExcept, tupleRecord]
  · intro h
    have h' : (String.mk (List.replicate k 'a')) = String.mk (List.replicate k' 'a') := h
    have h2 := congrArg (fun s => s.data.length) h'
    simp only [List.length_replicate] at h2
    exact hne h2

/-- Claim C7. `GetID` is a function of the six identifying fields alone: two records that
agree on `LocalAddr.IP`, `LocalAddr.Name`, `RemoteAddr.IP`, `RemoteAddr.Name`,
`Relation.Mode` and `Relation.Port` get the same id, whatever their `Id`, the other
fields of `Relation` and their `Options` are. -/
theorem GetID_congr (r r' : SockTable) (h1 : r.LocalAddr.IP = r'.LocalAddr.IP)
    (h2 : r.LocalAddr.Name = r'.LocalAddr.Name) (h3 : r.RemoteAddr.IP = r'.RemoteAddr.IP)
    (h4 : r.RemoteAddr.Name = r'.RemoteAddr.Name) (h5 : r.Relation.Mode = r'.Relation.Mode)
    (h6 : r.Relation.Port = r'.Relation.Port) : GetID r = GetID r' := by
  unfold GetID idText
  rw [h1, h2, h3, h4, h5, h6]

/-- Claim C7 at two records with the same six fields and different `Id`, `Command`,
`Result`, `Status` and `ActiveTime`. -/
theorem GetID_congr_witness :
    GetID ⟨"x", ⟨some [10, 0, 0, 1], "alpha"⟩, ⟨some [10, 0, 0, 2], "beta"⟩,
        ⟨"tcp", 80, "ping", 1, 0, 3⟩, ⟨"web", "added", "", 0, 0, 1700000000⟩⟩ =
      GetID (sampleRecord (some [10, 0, 0, 1]) 80 "" 0) :=
  GetID_congr _ _ (by decide) (by decide) (by decide) (by decide) (by decide) (by decide)

/-! ## Fan-out handlers -/

theorem admitRecords_foldl (data acc : List SockTable) :
    data.foldl
      (fun records nr =>
        if nr.LocalAddr.Name = "" then records
        else if nr.LocalAddr.IP = none then records
        else if nr.RemoteAddr.Name = "" then records
        else if nr.RemoteAddr.IP = none then records
        else if nr.Relation.Port = 0 then records
        else if nr.Relation.Mode = "" then records
        else records ++ [nr])
      acc = acc ++ data.filter hasRequiredFields := by
  induction data generalizing acc with
  | nil => simp
  | cons nr data ih =>
    rw [List.foldl_cons, ih]
    by_cases h1 : nr.LocalAddr.Name = ""
    · simp [List.filter_cons, hasRequiredFields, h1]
    by_cases h2 : nr.LocalAddr.IP = none
    · simp [List.filter_cons, hasRequiredFields, h1, h2]
    by_cases h3 : nr.RemoteAddr.Name = ""
    · simp [List.filter_cons, hasRequiredFields, h1, h2, h3]
    by_cases h4 : nr.RemoteAddr.IP = none
    · simp [List.filter_cons, hasRequiredFields, h1, h2, h3, h4]
    by_cases h5 : nr.Relation.Port = 0
    · simp [List.filter_cons, hasRequiredFields, h1, h2, h3, h4, h5]
    by_cases h6 : nr.Relation.Mode = ""
    · simp [List.filter_cons, hasRequiredFields, h1, h2, h3, h4, h5, h6]
    · simp [List.filter_cons, hasRequiredFields, h1, h2, h3, h4, h5, h6]

theorem admitRecords_eq_filter (data : List SockTable) :
    admitRecords data = data.filter hasRequiredFields := by
  unfold admitRecords
  rw [admitRecords_foldl]
  rfl

theorem peerTask_eq {P : Type} (method : String) (args : P) (keepErr : Bool)
    (res : String → Option String) (s : Round P) (id : String) (client : Client) :
    peerTask method args keepErr res s id client =
      match res id with
      | none => ⟨s.calls ++ [⟨id, client, method, args⟩], s.er, s.connections, s.blocked⟩
      | some err =>
        match reportFailure s.connections id with
        | some c =>
          ⟨s.calls ++ [⟨id, client, method, args⟩], if keepErr then s.er.set id err else s.er,
            c, s.blocked⟩
        | none =>
          ⟨s.calls ++ [⟨id, client, method, args⟩], if keepErr then s.er.set id err else s.er,
            s.connections, s.blocked ++ [id]⟩ := by
  unfold peerTask
  cases res id with
  | none => rfl
  | some err => cases keepErr <;> rfl

theorem peerTask_calls {P : Type} (method : String) (args : P) (keepErr : Bool)
    (res : String → Option String) (s : Round P) (id : String) (client : Client) :
    (peerTask method args keepErr res s id client).calls =
      s.calls ++ [⟨id, client, method, args⟩] := by
  rw [peerTask_eq]
  cases res id with
  | none => rfl
  | some err => cases reportFailure s.connections id <;> rfl

theorem foldl_peerTask_calls {P : Type} (method : String) (args : P) (keepErr : Bool)
    (res : String → Option String) (pick : String × Client → Client)
    (l : List (String × Client)) (s : Round P) :
    (l.foldl (fun s e => peerTask method args keepErr res s e.1 (pick e)) s).calls =
      s.calls ++ l.map (fun e => ⟨e.1, pick e, method, args⟩) := by
  induction l generalizing s with
  | nil => simp
  | cons e l ih =>
    rw [List.foldl_cons, ih, peerTask_calls]
    simp

theorem fanOut_calls {P : Type} (api : Api) (method : String) (args : P) (keepErr : Bool)
    (res : String → Option String) :
    (fanOut api method args keepErr res).calls =
      api.peers.entries.map (fun e => ⟨e.1, e.2, method, args⟩) := by
  unfold fanOut
  rw [foldl_peerTask_calls method args keepErr res (fun e => e.2)]
  rfl

/-- Claim C8. For every decoded batch posted to `ApiRecords`, the records admitted by the
validation loop are the records of the batch that have all required fields, in the
order of the batch, and this list is the argument of the one `RPC.SetRecords` call
issued to each live peer. A record with port 0 in a batch of three, at whatever
position, is dropped and the two others, when they have the required fields, are
admitted. -/
theorem ApiRecordsPost_payload (api : Api) (data : List SockTable)
    (res : String → Option String) :
    admitRecords data = data.filter hasRequiredFields ∧
    (ApiRecordsPost api data res).1.calls =
      api.peers.entries.map
        (fun e => ⟨e.1, e.2, "RPC.SetRecords", data.filter hasRequiredFields⟩) ∧
    (∀ a b c : SockTable, hasRequiredFields a = true → hasRequiredFields c = true →
      b.Relation.Port = 0 →
      admitRecords [b, a, c] = [a, c] ∧ admitRecords [a, b, c] = [a, c] ∧
      admitRecords [a, c, b] = [a, c]) := by
  refine ⟨admitRecords_eq_filter data, ?_, ?_⟩
  · unfold ApiRecordsPost
    simp only []
    rw [fanOut_calls, admitRecords_eq_filter]
  · intro a b c ha hc hb
    have hb' : hasRequiredFields b = false := by
      simp [hasRequiredFields, hb]
    simp [admitRecords_eq_filter, List.filter_cons, ha, hc, hb']

/-- Claim C9 fails on the code: `ApiNetstat`, `ApiTracert` and `ApiStatus` pass the decoded
batch to every live peer as it came, without any check of the required fields. -/
theorem ApiNetstatPost_forwards_all (api : Api) (data : List SockTable)
    (res : String → Option String) (loopVar : String → Client) :
    (ApiNetstatPost api data res).1.calls =
      api.peers.entries.map (fun e => ⟨e.1, e.2, "RPC.SetNetstat", data⟩) ∧
    (ApiTracertPost api data res).1.calls =
      api.peers.entries.map (fun e => ⟨e.1, e.2, "RPC.SetTracert", data⟩) ∧
    (ApiStatusPost api data res loopVar).1.calls =
      api.peers.entries.map (fun e => ⟨e.1, loopVar e.1, "RPC.SetStatus", data⟩) := by
  refine ⟨?_, ?_, ?_⟩
  · exact fanOut_calls api _ data false res
  · exact fanOut_calls api _ data false res
  · unfold ApiStatusPost
    simp only []
    rw [foldl_peerTask_calls "RPC.SetStatus" data false res (fun e => loopVar e.1)]
    rfl

/-- Claim C9 at a failing input: a batch of a complete record and a record with port 0,
posted to `ApiNetstat`, `ApiTracert` or `ApiStatus` while two peers are live, goes to both
peers with the port-0 record in it. -/
theorem ApiNetstatPost_port_zero_forwarded :
    hasRequiredFields (sampleRecord (some [10, 0, 0, 1]) 0 "" 0) = false ∧
    (ApiNetstatPost twoPeers
        [sampleRecord (some [10, 0, 0, 1]) 80 "" 0, sampleRecord (some [10, 0, 0, 1]) 0 "" 0]
        (fun _ => none)).1.calls =
      [⟨"10.0.0.7:8081", 1, "RPC.SetNetstat",
          [sampleRecord (some [10, 0, 0, 1]) 80 "" 0, sampleRecord (some [10, 0, 0, 1]) 0 "" 0]⟩,
        ⟨"10.0.0.8:8081", 2, "RPC.SetNetstat",
          [sampleRecord (some [10, 0, 0, 1]) 80 "" 0, sampleRecord (some [10, 0, 0, 1]) 0 "" 0]⟩] ∧
    (ApiTracertPost twoPeers
        [sampleRecord (some [10, 0, 0, 1]) 80 "" 0, sampleRecord (some [10, 0, 0, 1]) 0 "" 0]
        (fun _ => none)).1.calls =
      [⟨"10.0.0.7:8081", 1, "RPC.SetTracert",
          [sampleRecord (some [10, 0, 0, 1]) 80 "" 0, sampleRecord (some [10, 0, 0, 1]) 0 "" 0]⟩,
        ⟨"10.0.0.8:8081", 2, "RPC.SetTracert",
          [sampleRecord (some [10, 0, 0, 1]) 80 "" 0, sampleRecord (some [10, 0, 0, 1]) 0 "" 0]⟩] ∧
    ((ApiStatusPost twoPeers
        [sampleRecord (some [10, 0, 0, 1]) 80 "" 0, sampleRecord (some [10, 0, 0, 1]) 0 "" 0]
        (fun _ => none) (fun _ => 2)).1.calls.map (fun c => c.args)) =
      [[sampleRecord (some [10, 0, 0, 1]) 80 "" 0, sampleRecord (some [10, 0, 0, 1]) 0 "" 0],
        [sampleRecord (some [10, 0, 0, 1]) 80 "" 0, sampleRecord (some [10, 0, 0, 1]) 0 "" 0]] := by
  decide

theorem peerTask_er {P : Type} (method : String) (args : P)
    (res : String → Option String) (s : Round P) (id : String) (client : Client) :
    (peerTask method args true res s id client).er =
      match res id with
      | none => s.er
      | some err => s.er.set id err := by
  rw [peerTask_eq]
  cases res id with
  | none => rfl
  | some err => cases reportFailure s.connections id <;> rfl

theorem foldl_peerTask_er {P : Type} (method : String) (args : P)
    (res : String → Option String) (l : List (String × Client)) (s : Round P) (id : String) :
    (l.foldl (fun s e => peerTask method args true res s e.1 e.2) s).er.get id =
      if id ∈ l.map Prod.fst ∧ res id ≠ none then res id else s.er.get id := by
  induction l generalizing s with
  | nil => simp
  | cons e l ih =>
    rw [List.foldl_cons, ih, peerTask_er]
    by_cases h : id ∈ l.map Prod.fst ∧ res id ≠ none
    · have h' : id ∈ (e :: l).map Prod.fst ∧ res id ≠ none :=
        ⟨by rw [List.map_cons]; exact List.mem_cons_of_mem _ h.1, h.2⟩
      rw [if_pos h, if_pos h']
    · rw [if_neg h]
      by_cases he : id = e.1
      · subst he
        cases hr : res e.1 with
        | none => simp [hr]
        | some err => simp [hr, GoMap.get_set_self]
      · have hiff : (id ∈ (e :: l).map Prod.fst ∧ res id ≠ none) ↔
            (id ∈ l.map Prod.fst ∧ res id ≠ none) := by
          rw [List.map_cons, List.mem_cons]
          constructor
          · rintro ⟨h1 | h1, h2⟩
            · exact absurd h1 he
            · exact ⟨h1, h2⟩
          · rintro ⟨h1, h2⟩
            exact ⟨Or.inr h1, h2⟩
        rw [if_neg (fun h' => h (hiff.1 h'))]
        cases hr : res e.1 with
        | none => rfl
        | some err => exact GoMap.get_set_ne _ _ _ _ he

theorem reportFailure_isSome (connections : GoMap Nat) (id : String)
    (h : (connections.get id).isSome = true) :
    ∃ c, reportFailure connections id = some c ∧
      ∀ k, (connections.get k).isSome = true → (c.get k).isSome = true := by
  unfold reportFailure
  cases hg : connections.get id with
  | none => rw [hg] at h; cases h
  | some n =>
    by_cases hn : n < 1
    · refine ⟨connections.set id (n + 1), by simp [hn], ?_⟩
      intro k hk
      by_cases hki : k = id
      · rw [hki, GoMap.get_set_self]
        rfl
      · rw [GoMap.get_set_ne _ _ _ _ hki]
        exact hk
    · exact ⟨connections, by simp [hn], fun k hk => hk⟩

theorem foldl_peerTask_blocked {P : Type} (method : String) (args : P) (keepErr : Bool)
    (res : String → Option String) (l : List (String × Client)) (s : Round P)
    (hb : s.blocked = []) (hc : ∀ e ∈ l, (s.connections.get e.1).isSome = true) :
    (l.foldl (fun s e => peerTask method args keepErr res s e.1 e.2) s).blocked = [] := by
  induction l generalizing s with
  | nil => exact hb
  | cons e l ih =>
    rw [List.foldl_cons]
    have he := hc e (List.mem_cons_self _ _)
    obtain ⟨c, hrep, hpres⟩ := reportFailure_isSome s.connections e.1 he
    apply ih
    · rw [peerTask_eq]
      cases res e.1 with
      | none => exact hb
      | some err =>
        simp only [hrep]
        exact hb
    · intro e' he'
      have h' := hc e' (List.mem_cons_of_mem _ he')
      rw [peerTask_eq]
      cases res e.1 with
      | none => exact h'
      | some err =>
        simp only [hrep]
        exact hpres _ h'

theorem fanOut_blocked {P : Type} (api : Api) (method : String) (args : P) (keepErr : Bool)
    (res : String → Option String)
    (hconn : ∀ id ∈ api.peers.keys, (api.connections.get id).isSome = true) :
    (fanOut api method args keepErr res).blocked = [] := by
  unfold fanOut
  apply foldl_peerTask_blocked
  · rfl
  · intro e he
    exact hconn e.1 (List.mem_map.2 ⟨e, he, rfl⟩)

theorem fanOut_er {P : Type} (api : Api) (method : String) (args : P)
    (res : String → Option String) (id : String) :
    (fanOut api method args true res).er.get id =
      if id ∈ api.peers.keys ∧ res id ≠ none then res id else none := by
  unfold fanOut
  rw [foldl_peerTask_er]
  rfl

theorem deleteReply_spec (er : GoMap String) (seed : Nat) :
    ((deleteReply er seed).code = 500 ↔ ∃ id, er.get id ≠ none) ∧
    ((deleteReply er seed).code = 500 →
      ∃ id err, er.get id = some err ∧ (deleteReply er seed).body = some ⟨"error", err⟩) ∧
    ((∀ id, er.get id = none) → deleteReply er seed = ⟨200, some ⟨"success", ""⟩⟩) := by
  unfold deleteReply GoMap.len
  cases hl : er.entries with
  | nil =>
    have hnone : ∀ id, er.get id = none := by
      intro id
      simp [GoMap.get, hl]
    refine ⟨?_, ?_, ?_⟩
    · simp [hnone]
    · simp
    · intro _
      simp
  | cons e l =>
    have hlt : seed % (e :: l).length < (e :: l).length := Nat.mod_lt _ (by simp)
    obtain ⟨e', he'⟩ : ∃ e', (e :: l).get? (seed % (e :: l).length) = some e' :=
      ⟨_, List.get?_eq_get hlt⟩
    have hmem : e' ∈ er.entries := by
      rw [hl]
      exact List.get?_mem he'
    have hget : er.get e'.1 = some e'.2 := (GoMap.get_eq_some_iff _ _ _).2 hmem
    rw [he']
    refine ⟨?_, ?_, ?_⟩
    · simp only [true_iff]
      exact ⟨e'.1, by rw [hget]; simp⟩
    · intro _
      exact ⟨e'.1, e'.2, hget, rfl⟩
    · intro h
      rw [h e'.1] at hget
      cases hget

theorem GoMap.mem_keys_iff {α : Type} (m : GoMap α) (k : String) :
    k ∈ m.keys ↔ (m.get k).isSome = true := by
  rw [← not_iff_not, ← GoMap.get_eq_none_iff]
  cases m.get k <;> simp

theorem GoMap.isSome_get_set {α : Type} (m : GoMap α) (k k' : String) (v : α)
    (h : (m.get k').isSome = true) : ((m.set k v).get k').isSome = true := by
  by_cases hk : k' = k
  · rw [hk, GoMap.get_set_self]
    rfl
  · rw [GoMap.get_set_ne _ _ _ _ hk]
    exact h

theorem NewAPI_linked (peers : List String) : (NewAPI peers).Linked := by
  intro id hid
  simp [NewAPI, GoMap.keys, GoMap.empty] at hid

theorem ApiPeers_linked (api : Api) (dial : String → Option Client) (h : api.Linked) :
    (ApiPeers api dial).Linked := by
  unfold ApiPeers
  have key : ∀ (l : List (String × Nat)) (a : Api), a.Linked →
      (∀ e ∈ l, (a.connections.get e.1).isSome = true) →
      (l.foldl
        (fun a e =>
          match dial e.1 with
          | none => a
          | some cl =>
            if (a.peers.get e.1).isNone then { a with peers := a.peers.set e.1 cl }
            else
              match a.connections.get e.1 with
              | some n =>
                if n > 0 then
                  { peers := a.peers.set e.1 cl, connections := a.connections.set e.1 (n - 1) }
                else a
              | none => a)
        a).Linked := by
    intro l
    induction l with
    | nil => intro a ha _; exact ha
    | cons e l ih =>
      intro a ha hl
      rw [List.foldl_cons]
      have he := hl e (List.mem_cons_self _ _)
      have hrest : ∀ e' ∈ l, (a.connections.get e'.1).isSome = true :=
        fun e' he' => hl e' (List.mem_cons_of_mem _ he')
      have hset : ∀ cl, ∀ id ∈ (a.peers.set e.1 cl).keys, (a.connections.get id).isSome = true := by
        intro cl id hid
        rw [GoMap.mem_keys_iff] at hid
        by_cases hk : id = e.1
        · rw [hk]; exact he
        · rw [GoMap.get_set_ne _ _ _ _ hk] at hid
          exact ha id ((GoMap.mem_keys_iff _ _).2 hid)
      cases hd : dial e.1 with
      | none => exact ih a ha hrest
      | some cl =>
        simp only []
        by_cases hp : (a.peers.get e.1).isNone = true
        · rw [if_pos hp]
          exact ih _ (hset cl) hrest
        · rw [if_neg hp]
          cases hc : a.connections.get e.1 with
          | none => exact ih a ha hrest
          | some n =>
            simp only []
            by_cases hn : n > 0
            · rw [if_pos hn]
              apply ih
              · intro id hid
                exact GoMap.isSome_get_set _ _ _ _ (hset cl id hid)
              · intro e' he'
                exact GoMap.isSome_get_set _ _ _ _ (hrest e' he')
            · rw [if_neg hn]
              exact ih a ha hrest
  apply key _ _ h
  intro e he
  rw [← GoMap.mem_keys_iff]
  exact List.mem_map.2 ⟨e, he, rfl⟩

theorem peerTask_connections_isSome {P : Type} (method : String) (args : P) (keepErr : Bool)
    (res : String → Option String) (s : Round P) (id : String) (client : Client) (k : String)
    (h : (s.connections.get k).isSome = true) :
    ((peerTask method args keepErr res s id client).connections.get k).isSome = true := by
  rw [peerTask_eq]
  cases res id with
  | none => exact h
  | some err =>
    cases hr : reportFailure s.connections id with
    | none => exact h
    | some c =>
      simp only []
      unfold reportFailure at hr
      cases hg : s.connections.get id with
      | none => rw [hg] at hr; cases hr
      | some n =>
        rw [hg] at hr
        by_cases hn : n < 1
        · simp only [hn, if_true, Option.some.injEq] at hr
          rw [← hr]
          exact GoMap.isSome_get_set _ _ _ _ h
        · simp only [hn, if_false, Option.some.injEq] at hr
          rw [← hr]
          exact h

/-- A fan-out round keeps every channel of `connections`, so it keeps `Api.Linked`. -/
theorem fanOut_linked {P : Type} (api : Api) (method : String) (args : P) (keepErr : Bool)
    (res : String → Option String) (h : api.Linked) :
    Api.Linked ⟨api.peers, (fanOut api method args keepErr res).connections⟩ := by
  have key : ∀ (l : List (String × Client)) (s : Round P) (k : String),
      (s.connections.get k).isSome = true →
      ((l.foldl (fun s e => peerTask method args keepErr res s e.1 e.2) s).connections.get k).isSome
        = true := by
    intro l
    induction l with
    | nil => intro s k hk; exact hk
    | cons e l ih =>
      intro s k hk
      rw [List.foldl_cons]
      exact ih _ k (peerTask_connections_isSome method args keepErr res s e.1 e.2 k hk)
  intro id hid
  exact key _ _ id (h id hid)

theorem delete_outcome (api : Api) (method : String) (keys : List String)
    (res : String → Option String) (seed : Nat) (hconn : api.Linked) :
    (∀ id, (fanOut api method keys true res).er.get id =
      if id ∈ api.peers.keys then res id else none) ∧
    (fanOut api method keys true res).calls.map (fun c => c.peer) = api.peers.keys ∧
    (fanOut api method keys true res).blocked = [] ∧
    ((deleteReply (fanOut api method keys true res).er seed).code = 500 ↔
      ∃ id ∈ api.peers.keys, res id ≠ none) ∧
    ((deleteReply (fanOut api method keys true res).er seed).code = 500 →
      ∃ id ∈ api.peers.keys, ∃ err, res id = some err ∧
        (deleteReply (fanOut api method keys true res).er seed).body = some ⟨"error", err⟩) ∧
    ((deleteReply (fanOut api method keys true res).er seed).code ≠ 500 →
      deleteReply (fanOut api method keys true res).er seed = ⟨200, some ⟨"success", ""⟩⟩) := by
  have her : ∀ id, (fanOut api method keys true res).er.get id =
      if id ∈ api.peers.keys then res id else none := by
    intro id
    rw [fanOut_er]
    by_cases h1 : id ∈ api.peers.keys
    · by_cases h2 : res id = none
      · simp [h1, h2]
      · simp [h1, h2]
    · simp [h1]
  have hfail : (∃ id, (fanOut api method keys true res).er.get id ≠ none) ↔
      ∃ id ∈ api.peers.keys, res id ≠ none := by
    constructor
    · rintro ⟨id, hid⟩
      rw [her] at hid
      by_cases h1 : id ∈ api.peers.keys
      · rw [if_pos h1] at hid
        exact ⟨id, h1, hid⟩
      · rw [if_neg h1] at hid
        exact absurd rfl hid
    · rintro ⟨id, h1, h2⟩
      exact ⟨id, by rw [her, if_pos h1]; exact h2⟩
  obtain ⟨s1, s2, s3⟩ := deleteReply_spec (fanOut api method keys true res).er seed
  refine ⟨her, ?_, fanOut_blocked api method keys true res hconn, s1.trans hfail, ?_, ?_⟩
  · rw [fanOut_calls, List.map_map]
    rfl
  · intro h
    obtain ⟨id, err, hget, hbody⟩ := s2 h
    rw [her] at hget
    by_cases h1 : id ∈ api.peers.keys
    · rw [if_pos h1] at hget
      exact ⟨id, h1, err, hget, hbody⟩
    · rw [if_neg h1] at hget
      cases hget
  · intro h
    apply s3
    intro id
    by_contra hne
    exact h (s1.2 ⟨id, hne⟩)

/-- Claim C10. In the DELETE handlers of `ApiRecords` and `ApiExceptions`, for every set
of live peers (each with its reconnect channel, as `NewAPI` and `ApiPeers` leave them)
and every assignment of call results: the error aggregate holds exactly the peers whose
call failed, each with its own error; one call is issued to every live peer, whatever
the results of the others; the handler answers, with 500 if and only if some peer failed,
the reported error then being the error of a failing peer, and with 200 `success`
otherwise. -/
theorem ApiDelete_await_all (api : Api) (keys : List String) (res : String → Option String)
    (seed : Nat) (hconn : api.Linked) :
    ∀ out ∈ [ApiRecordsDelete api keys res seed, ApiExceptionsDelete api keys res seed],
      (∀ id, out.1.er.get id = if id ∈ api.peers.keys then res id else none) ∧
      out.1.calls.map (fun c => c.peer) = api.peers.keys ∧
      ∃ rep, out.2 = some rep ∧
        (rep.code = 500 ↔ ∃ id ∈ api.peers.keys, res id ≠ none) ∧
        (rep.code = 500 →
          ∃ id ∈ api.peers.keys, ∃ err, res id = some err ∧ rep.body = some ⟨"error", err⟩) ∧
        (rep.code ≠ 500 → rep = ⟨200, some ⟨"success", ""⟩⟩) := by
  intro out hout
  simp only [List.mem_cons, List.mem_singleton, List.not_mem_nil, or_false] at hout
  rcases hout with rfl | rfl
  · obtain ⟨h1, h2, h3, h4, h5, h6⟩ := delete_outcome api "RPC.DelRecords" keys res seed hconn
    refine ⟨h1, h2, deleteReply (fanOut api "RPC.DelRecords" keys true res).er seed, ?_,
      h4, h5, h6⟩
    simp [ApiRecordsDelete, h3]
  · obtain ⟨h1, h2, h3, h4, h5, h6⟩ := delete_outcome api "RPC.DelExceptions" keys res seed hconn
    refine ⟨h1, h2, deleteReply (fanOut api "RPC.DelExceptions" keys true res).er seed, ?_,
      h4, h5, h6⟩
    simp [ApiExceptionsDelete, h3]

/-- Claim C10 at `twoPeers` when the first peer fails: the call to the second peer is
issued all the same, the aggregate holds the first peer alone and the answer is 500 with
its error. -/
theorem ApiDelete_await_all_witness :
    twoPeers.Linked ∧
    (ApiRecordsDelete twoPeers ["k1"] firstFails 0).1.calls.map (fun c => c.peer) =
      ["10.0.0.7:8081", "10.0.0.8:8081"] ∧
    (ApiRecordsDelete twoPeers ["k1"] firstFails 0).1.er.get "10.0.0.8:8081" = none ∧
    (ApiRecordsDelete twoPeers ["k1"] firstFails 0).2 =
      some ⟨500, some ⟨"error", "connection is shut down"⟩⟩ :=
  ⟨by decide,
    (ApiDelete_await_all twoPeers ["k1"] firstFails 0 (by decide)
      (ApiRecordsDelete twoPeers ["k1"] firstFails 0) (List.mem_cons_self _ _)).2.1,
    by decide, by decide⟩

/-! ## The store stays bounded -/

theorem GoMap.len_delete_le {α : Type} (m : GoMap α) (k : String) :
    (m.delete k).len ≤ m.len :=
  List.length_filter_le _ _

theorem GoMap.length_filter_ne_of_mem {α : Type} (l : List (String × α))
    (h : (l.map Prod.fst).Nodup) (k : String) (hk : k ∈ l.map Prod.fst) :
    (l.filter (fun e => e.1 ≠ k)).length + 1 = l.length := by
  induction l with
  | nil => simp at hk
  | cons e l ih =>
    rw [List.map_cons, List.nodup_cons] at h
    by_cases he : e.1 = k
    · have hnot : k ∉ l.map Prod.fst := he ▸ h.1
      have hall : l.filter (fun e => e.1 ≠ k) = l := by
        rw [List.filter_eq_self]
        intro x hx
        have : x.1 ≠ k := fun h' => hnot (List.mem_map.2 ⟨x, hx, h'⟩)
        simpa using this
      rw [List.filter_cons_of_neg (by simp [he]), hall, List.length_cons]
    · have hk' : k ∈ l.map Prod.fst := by
        rw [List.map_cons, List.mem_cons] at hk
        rcases hk with hk | hk
        · exact absurd hk.symm he
        · exact hk
      rw [List.filter_cons_of_pos (by simpa using he), List.length_cons, List.length_cons,
        ih h.2 hk']

theorem GoMap.len_set {α : Type} (m : GoMap α) (k : String) (v : α) :
    (m.set k v).len = if (m.get k).isSome = true then m.len else m.len + 1 := by
  show ((k, v) :: m.entries.filter (fun e => e.1 ≠ k)).length = _
  rw [List.length_cons]
  cases hg : m.get k with
  | none =>
    have := congrArg GoMap.entries (GoMap.delete_eq_self m k hg)
    simp only [GoMap.delete] at this
    rw [this]
    rfl
  | some w =>
    have hk : k ∈ m.entries.map Prod.fst := (GoMap.mem_keys_iff m k).2 (by rw [hg]; rfl)
    rw [GoMap.length_filter_ne_of_mem m.entries m.nodup k hk]
    rfl

theorem GoMap.len_foldl_delete_le {α : Type} (c : String × α → Bool) (l : List (String × α))
    (m : GoMap α) :
    (l.foldl (fun items e => if c e = true then items.delete e.1 else items) m).len ≤ m.len := by
  induction l generalizing m with
  | nil => exact Nat.le_refl _
  | cons e l ih =>
    rw [List.foldl_cons]
    refine Nat.le_trans (ih _) ?_
    split
    · exact GoMap.len_delete_le _ _
    · exact Nat.le_refl _

theorem Records.apply_bounded (t : Records) (op : StoreOp)
    (h : (t.items.len : Int) ≤ t.limit) :
    (((t.apply op).items.len : Nat) : Int) ≤ (t.apply op).limit ∧
      (t.apply op).limit = t.limit := by
  cases op with
  | set key val active now =>
    show (((t.Set key val active now).1.items.len : Nat) : Int) ≤
        (t.Set key val active now).1.limit ∧ (t.Set key val active now).1.limit = t.limit
    rw [Records.Set_eq]
    split
    · exact ⟨h, rfl⟩
    · rename_i hc
      refine ⟨?_, rfl⟩
      simp only []
      rw [GoMap.len_set]
      cases hg : t.items.get key with
      | some w => simpa using h
      | none =>
        have hlt : ¬ (t.items.len : Int) ≥ t.limit := fun h' => hc ⟨hg, h'⟩
        simp only [Option.isSome_none, Bool.false_eq_true, if_false]
        push_cast
        omega
  | del key =>
    refine ⟨?_, rfl⟩
    show (((t.items.delete key).len : Nat) : Int) ≤ t.limit
    have := GoMap.len_delete_le t.items key
    omega
  | sweep clock =>
    refine ⟨?_, rfl⟩
    show (((t.DelExpiredItems clock).1.items.len : Nat) : Int) ≤ t.limit
    rw [Records.DelExpiredItems_items]
    have := GoMap.len_foldl_delete_le
      (fun e => !decide (e.2.Options.Status = "added") && expired t.flush e.2 (clock e.1))
      t.items.entries t.items
    omega

theorem Records.foldl_apply_bounded (ops : List StoreOp) (t : Records)
    (h : (t.items.len : Int) ≤ t.limit) :
    (((ops.foldl Records.apply t).items.len : Nat) : Int) ≤ t.limit := by
  induction ops generalizing t with
  | nil => exact h
  | cons op ops ih =>
    rw [List.foldl_cons]
    have hs := Records.apply_bounded t op h
    rw [← hs.2]
    exact ih _ hs.1

/-- Claim C14. Starting from the store that `NewCacheRecords` makes with `limit >= 0`,
after every sequence of `Set`, `Del` and `DelExpiredItems` calls, failed `Set` calls
included, the number of stored entries is at most `limit`. -/
theorem Records.len_le_limit (limit flush : Int) (ops : List StoreOp) (h : 0 ≤ limit) :
    (((ops.foldl Records.apply (NewCacheRecords limit flush)).items.len : Nat) : Int) ≤ limit :=
  Records.foldl_apply_bounded ops (NewCacheRecords limit flush) h

/-- Claim C14 on a store of limit 1: after two `Set` calls with new keys, a sweep, a `Del`
and a third `Set`, the store holds one entry. -/
theorem Records.len_le_limit_witness :
    (0 : Int) ≤ 1 ∧
    (([StoreOp.set "a" (sampleRecord none 80 "" 0) true 10,
        StoreOp.set "b" (sampleRecord none 81 "" 0) true 11,
        StoreOp.sweep (fun _ => 12), StoreOp.del "a",
        StoreOp.set "c" (sampleRecord none 82 "" 0) true 13].foldl Records.apply
          (NewCacheRecords 1 0)).items.len : Int) ≤ 1 ∧
    ([StoreOp.set "a" (sampleRecord none 80 "" 0) true 10,
        StoreOp.set "b" (sampleRecord none 81 "" 0) true 11,
        StoreOp.sweep (fun _ => 12), StoreOp.del "a",
        StoreOp.set "c" (sampleRecord none 82 "" 0) true 13].foldl Records.apply
          (NewCacheRecords 1 0)).items.keys = ["c"] :=
  ⟨by decide, Records.len_le_limit 1 0 _ (by decide), by decide⟩

/-! ## Reconnect requests and reconciliation passes -/

theorem ApiPeers_eq_foldl (api : Api) (dial : String → Option Client) :
    ApiPeers api dial = api.connections.entries.foldl (peersStep dial) api := rfl

theorem peersStep_get (dial : String → Option Client) (a : Api) (e : String × Nat)
    (k : String) :
    (peersStep dial a e).peers.get k =
        (if k = e.1 then (dialOutcome (a.peers.get k) (a.connections.get k) (dial k)).1
          else a.peers.get k) ∧
    (peersStep dial a e).connections.get k =
        (if k = e.1 then (dialOutcome (a.peers.get k) (a.connections.get k) (dial k)).2
          else a.connections.get k) := by
  by_cases hk : k = e.1
  · subst hk
    cases hd : dial e.1 with
    | none => simp [peersStep, dialOutcome, hd]
    | some cl =>
      cases hp : a.peers.get e.1 with
      | none => simp [peersStep, dialOutcome, hd, hp, GoMap.get_set_self]
      | some old =>
        cases hc : a.connections.get e.1 with
        | none => simp [peersStep, dialOutcome, hd, hp, hc]
        | some n =>
          by_cases hn : 0 < n
          · simp [peersStep, dialOutcome, hd, hp, hc, hn, GoMap.get_set_self]
          · simp [peersStep, dialOutcome, hd, hp, hc, hn]
  · cases hd : dial e.1 with
    | none => simp [peersStep, hd, hk]
    | some cl =>
      cases hp : a.peers.get e.1 with
      | none => simp [peersStep, hd, hp, hk, GoMap.get_set_ne _ _ _ _ hk]
      | some old =>
        cases hc : a.connections.get e.1 with
        | none => simp [peersStep, hd, hp, hc, hk]
        | some n =>
          by_cases hn : 0 < n
          · simp [peersStep, hd, hp, hc, hn, hk, GoMap.get_set_ne _ _ _ _ hk]
          · simp [peersStep, hd, hp, hc, hn, hk]

theorem foldl_peersStep_get (dial : String → Option Client) (l : List (String × Nat))
    (hl : (l.map Prod.fst).Nodup) (a : Api) (k : String) :
    (l.foldl (peersStep dial) a).peers.get k =
        (if k ∈ l.map Prod.fst then
          (dialOutcome (a.peers.get k) (a.connections.get k) (dial k)).1
          else a.peers.get k) ∧
    (l.foldl (peersStep dial) a).connections.get k =
        (if k ∈ l.map Prod.fst then
          (dialOutcome (a.peers.get k) (a.connections.get k) (dial k)).2
          else a.connections.get k) := by
  induction l generalizing a with
  | nil => exact ⟨rfl, rfl⟩
  | cons e l ih =>
    rw [List.map_cons, List.nodup_cons] at hl
    rw [List.foldl_cons]
    obtain ⟨h1, h2⟩ := ih hl.2 (peersStep dial a e)
    obtain ⟨s1, s2⟩ := peersStep_get dial a e k
    rw [h1, h2, s1, s2]
    by_cases hk : k = e.1
    · have hnot : k ∉ l.map Prod.fst := hk ▸ hl.1
      have hin : k ∈ (e :: l).map Prod.fst := by
        rw [List.map_cons, hk]
        exact List.mem_cons_self _ _
      rw [if_neg hnot, if_neg hnot, if_pos hk, if_pos hk, if_pos hin, if_pos hin]
      exact ⟨rfl, rfl⟩
    · have hiff : k ∈ (e :: l).map Prod.fst ↔ k ∈ l.map Prod.fst := by
        rw [List.map_cons, List.mem_cons]
        constructor
        · rintro (h | h)
          · exact absurd h hk
          · exact h
        · exact Or.inr
      rw [if_neg hk, if_neg hk]
      by_cases hm : k ∈ l.map Prod.fst
      · rw [if_pos hm, if_pos hm, if_pos (hiff.2 hm), if_pos (hiff.2 hm)]
        exact ⟨rfl, rfl⟩
      · have hm' : ¬ k ∈ (e :: l).map Prod.fst := fun h => hm (hiff.1 h)
        rw [if_neg hm, if_neg hm, if_neg hm', if_neg hm']
        exact ⟨rfl, rfl⟩

/-- One pass of `ApiPeers` on the peer `k`: the body of the loop runs once for a peer that
has a channel in `connections`, and no other peer is touched. -/
theorem ApiPeers_get (api : Api) (dial : String → Option Client) (k : String) :
    (ApiPeers api dial).peers.get k =
        (if (api.connections.get k).isSome = true then
          (dialOutcome (api.peers.get k) (api.connections.get k) (dial k)).1
          else api.peers.get k) ∧
    (ApiPeers api dial).connections.get k =
        (if (api.connections.get k).isSome = true then
          (dialOutcome (api.peers.get k) (api.connections.get k) (dial k)).2
          else api.connections.get k) := by
  rw [ApiPeers_eq_foldl]
  obtain ⟨h1, h2⟩ := foldl_peersStep_get dial api.connections.entries api.connections.nodup api k
  rw [h1, h2]
  have hiff := GoMap.mem_keys_iff api.connections k
  unfold GoMap.keys at hiff
  by_cases hm : k ∈ api.connections.entries.map Prod.fst
  · rw [if_pos hm, if_pos hm, if_pos (hiff.1 hm), if_pos (hiff.1 hm)]
    exact ⟨rfl, rfl⟩
  · have hm' : ¬ (api.connections.get k).isSome = true := fun h => hm (hiff.2 h)
    rw [if_neg hm, if_neg hm, if_neg hm', if_neg hm']
    exact ⟨rfl, rfl⟩

/-- Claim C13. In a reconciliation pass `ApiPeers`, for a peer `k` with a channel that
holds `n` reconnect requests: if the peer has a handle and a pending request (`n > 0`),
a successful dial replaces the handle by the new client and takes one request off the
channel, which clears it when `n = 1`, and a failed dial leaves handle and channel as
they are; a peer without a handle has one after the pass exactly when its dial
succeeds, and it is the new client; no peer loses its handle. -/
theorem ApiPeers_transitions (api : Api) (dial : String → Option Client) (k : String)
    (n : Nat) (hc : api.connections.get k = some n) :
    (∀ old cl, api.peers.get k = some old → 0 < n → dial k = some cl →
      (ApiPeers api dial).peers.get k = some cl ∧
      (ApiPeers api dial).connections.get k = some (n - 1) ∧
      (n = 1 → (ApiPeers api dial).connections.get k = some 0)) ∧
    (∀ old, api.peers.get k = some old → dial k = none →
      (ApiPeers api dial).peers.get k = some old ∧
      (ApiPeers api dial).connections.get k = some n) ∧
    (api.peers.get k = none →
      (ApiPeers api dial).peers.get k = dial k ∧
      (((ApiPeers api dial).peers.get k).isSome = true ↔ (dial k).isSome = true)) ∧
    (∀ k', (api.peers.get k').isSome = true → ((ApiPeers api dial).peers.get k').isSome = true) := by
  obtain ⟨h1, h2⟩ := ApiPeers_get api dial k
  have hs : (api.connections.get k).isSome = true := by rw [hc]; rfl
  rw [if_pos hs] at h1 h2
  refine ⟨?_, ?_, ?_, ?_⟩
  · intro old cl hp hn hd
    rw [h1, h2, hp, hc, hd]
    have e1 : dialOutcome (some old) (some n) (some cl) = (some cl, some (n - 1)) := by
      simp [dialOutcome, hn]
    rw [e1]
    refine ⟨rfl, rfl, ?_⟩
    intro hn1
    rw [hn1]
  · intro old hp hd
    rw [h1, h2, hp, hc, hd]
    exact ⟨rfl, rfl⟩
  · intro hp
    rw [h1, hp]
    have e1 : (dialOutcome none (api.connections.get k) (dial k)).1 = dial k := by
      cases dial k <;> rfl
    rw [e1]
    exact ⟨rfl, Iff.rfl⟩
  · intro k' hk'
    obtain ⟨g1, _⟩ := ApiPeers_get api dial k'
    rw [g1]
    split
    · cases hp : api.peers.get k' with
      | none => rw [hp] at hk'; cases hk'
      | some old =>
        cases hd : dial k' with
        | none => rfl
        | some cl =>
          cases hcc : api.connections.get k' with
          | none => rfl
          | some m =>
            by_cases hm : 0 < m
            · simp [dialOutcome, hm]
            · simp [dialOutcome, hm]
    · exact hk'

/-- Claim C13 at `pendingPeers` when every dial gives a client 9: the first peer, which
has a pending request, gets handle 9 and its channel is cleared. -/
theorem ApiPeers_transitions_witness :
    pendingPeers.connections.get "10.0.0.7:8081" = some 1 ∧
    (ApiPeers pendingPeers (fun _ => some 9)).peers.get "10.0.0.7:8081" = some 9 ∧
    (ApiPeers pendingPeers (fun _ => some 9)).connections.get "10.0.0.7:8081" = some 0 ∧
    (ApiPeers pendingPeers (fun _ => some 9)).peers.get "10.0.0.8:8081" = some 2 :=
  ⟨by decide,
    ((ApiPeers_transitions pendingPeers (fun _ => some 9) "10.0.0.7:8081" 1 (by decide)).1
      1 9 (by decide) (by decide) rfl).1,
    ((ApiPeers_transitions pendingPeers (fun _ => some 9) "10.0.0.7:8081" 1 (by decide)).1
      1 9 (by decide) (by decide) rfl).2.2 rfl,
    by decide⟩

theorem foldl_set_zero_get (peers : List String) (c : GoMap Nat) (k : String) :
    (peers.foldl (fun c id => c.set id 0) c).get k =
      if k ∈ peers then some 0 else c.get k := by
  induction peers generalizing c with
  | nil => rfl
  | cons p peers ih =>
    rw [List.foldl_cons, ih]
    by_cases hk : k ∈ peers
    · rw [if_pos hk, if_pos (List.mem_cons_of_mem _ hk)]
    · rw [if_neg hk]
      by_cases hp : k = p
      · rw [if_pos (hp ▸ List.mem_cons_self _ _), hp, GoMap.get_set_self]
      · have : ¬ k ∈ p :: peers := by
          rw [List.mem_cons]
          rintro (h | h)
          · exact hp h
          · exact hk h
        rw [if_neg this, GoMap.get_set_ne _ _ _ _ hp]

theorem NewAPI_connections_get (peers : List String) (k : String) :
    (NewAPI peers).connections.get k = if k ∈ peers then some 0 else none := by
  unfold NewAPI
  simp only []
  rw [foldl_set_zero_get]
  rfl

theorem reportFailure_eq (c : GoMap Nat) (id : String) :
    reportFailure c id =
      (c.get id).map (fun n => if n < 1 then c.set id (n + 1) else c) := by
  unfold reportFailure
  cases c.get id with
  | none => rfl
  | some n => cases n <;> simp

theorem Api.report_get (api : Api) (id k : String) :
    (api.report id).peers = api.peers ∧
    (api.report id).connections.get k =
      if k = id then (api.connections.get k).map (fun n => if n < 1 then n + 1 else n)
      else api.connections.get k := by
  unfold Api.report
  rw [reportFailure_eq]
  cases hg : api.connections.get id with
  | none =>
    refine ⟨rfl, ?_⟩
    by_cases hk : k = id
    · rw [if_pos hk, hk, hg]
      simp [hg]
    · rw [if_neg hk]
      simp
  | some n =>
    cases n with
    | zero =>
      refine ⟨by simp, ?_⟩
      by_cases hk : k = id
      · rw [if_pos hk, hk, hg]
        simp [GoMap.get_set_self]
      · rw [if_neg hk]
        simp [GoMap.get_set_ne _ _ _ _ hk]
    | succ m =>
      refine ⟨by simp, ?_⟩
      by_cases hk : k = id
      · rw [if_pos hk, hk, hg]
        simp [hg]
      · rw [if_neg hk]
        simp

theorem Api.report_of_pending (api : Api) (id : String) (n : Nat)
    (h : api.connections.get id = some (n + 1)) : api.report id = api := by
  unfold Api.report
  rw [reportFailure_eq, h]
  simp

theorem Api.step_slot (api : Api) (ev : PeerEvent) (k : String)
    (h : api.connections.get k = some 0 ∨ api.connections.get k = some 1) :
    (api.step ev).connections.get k = some 0 ∨ (api.step ev).connections.get k = some 1 := by
  cases ev with
  | report id =>
    show (api.report id).connections.get k = some 0 ∨ (api.report id).connections.get k = some 1
    rw [(Api.report_get api id k).2]
    by_cases hk : k = id
    · rw [if_pos hk]
      rcases h with h | h <;> rw [h] <;> simp
    · rw [if_neg hk]
      exact h
  | pass dial =>
    show (ApiPeers api dial).connections.get k = some 0 ∨
      (ApiPeers api dial).connections.get k = some 1
    rw [(ApiPeers_get api dial k).2]
    have hs : (api.connections.get k).isSome = true := by
      rcases h with h | h <;> rw [h] <;> rfl
    rw [if_pos hs]
    cases hd : dial k with
    | none => exact h
    | some cl =>
      cases hp : api.peers.get k with
      | none => simpa [dialOutcome] using h
      | some old =>
        rcases h with h | h <;> rw [h] <;> simp [dialOutcome]

theorem Api.foldl_step_slot (events : List PeerEvent) (api : Api) (k : String)
    (h : api.connections.get k = some 0 ∨ api.connections.get k = some 1) :
    (events.foldl Api.step api).connections.get k = some 0 ∨
      (events.foldl Api.step api).connections.get k = some 1 := by
  induction events generalizing api with
  | nil => exact h
  | cons ev events ih =>
    rw [List.foldl_cons]
    exact ih _ (Api.step_slot api ev k h)

theorem Api.report_slot (api : Api) (id : String)
    (h : api.connections.get id = some 0 ∨ api.connections.get id = some 1) :
    (api.report id).connections.get id = some 1 := by
  rw [(Api.report_get api id id).2, if_pos rfl]
  rcases h with h | h <;> rw [h] <;> simp

theorem Api.report_iterate (api : Api) (id : String) (n : Nat)
    (h : api.connections.get id = some 0 ∨ api.connections.get id = some 1) :
    (fun a : Api => a.report id)^[n + 1] api = api.report id := by
  induction n with
  | zero => rfl
  | succ n ih =>
    rw [Function.iterate_succ_apply', ih]
    exact Api.report_of_pending _ id 0 (Api.report_slot api id h)

/-- Claim C12. For every configured peer `id` and every sequence of failure reports and
reconciliation passes after `NewAPI`, the channel of `id` holds 0 or 1 reconnect
request. A further report leaves exactly 1 request and, when one is pending already,
changes nothing in the state; so `n + 2` reports in a row leave the state that one
report leaves, the next pass does what it does after one report, and, for a peer with
a handle whose dial succeeds, it replaces the handle and leaves no request for a
second replacement. -/
theorem Api.reconnect_single_slot (peers : List String) (events : List PeerEvent)
    (id : String) (hid : id ∈ peers) :
    ((events.foldl Api.step (NewAPI peers)).connections.get id = some 0 ∨
      (events.foldl Api.step (NewAPI peers)).connections.get id = some 1) ∧
    ((events.foldl Api.step (NewAPI peers)).report id).connections.get id = some 1 ∧
    ((events.foldl Api.step (NewAPI peers)).connections.get id = some 1 →
      (events.foldl Api.step (NewAPI peers)).report id = events.foldl Api.step (NewAPI peers)) ∧
    (∀ n, (fun a : Api => a.report id)^[n + 2] (events.foldl Api.step (NewAPI peers)) =
      (events.foldl Api.step (NewAPI peers)).report id) ∧
    (∀ n dial,
      ApiPeers ((fun a : Api => a.report id)^[n + 2] (events.foldl Api.step (NewAPI peers))) dial =
        ApiPeers ((events.foldl Api.step (NewAPI peers)).report id) dial) ∧
    (∀ dial old cl, (events.foldl Api.step (NewAPI peers)).peers.get id = some old →
      dial id = some cl →
      (ApiPeers ((events.foldl Api.step (NewAPI peers)).report id) dial).peers.get id = some cl ∧
      (ApiPeers ((events.foldl Api.step (NewAPI peers)).report id) dial).connections.get id =
        some 0) := by
  have h0 : (NewAPI peers).connections.get id = some 0 ∨
      (NewAPI peers).connections.get id = some 1 := by
    rw [NewAPI_connections_get, if_pos hid]
    exact Or.inl rfl
  have hs := Api.foldl_step_slot events (NewAPI peers) id h0
  have hr := Api.report_slot _ id hs
  refine ⟨hs, hr, ?_, ?_, ?_, ?_⟩
  · intro h1
    exact Api.report_of_pending _ id 0 h1
  · intro n
    exact Api.report_iterate _ id (n + 1) hs
  · intro n dial
    rw [Api.report_iterate _ id (n + 1) hs]
  · intro dial old cl hp hd
    obtain ⟨g1, g2⟩ := ApiPeers_get ((events.foldl Api.step (NewAPI peers)).report id) dial id
    rw [g1, g2, hr, (Api.report_get _ id id).1, hp, hd]
    simp [dialOutcome]

/-- Claim C12 for one configured peer after two reports, a pass whose dial fails and a
third report: one request is pending. -/
theorem Api.reconnect_single_slot_witness :
    "10.0.0.7:8081" ∈ ["10.0.0.7:8081", "10.0.0.8:8081"] ∧
    ([PeerEvent.report "10.0.0.7:8081", PeerEvent.report "10.0.0.7:8081",
        PeerEvent.pass (fun _ => none), PeerEvent.report "10.0.0.7:8081"].foldl Api.step
      (NewAPI ["10.0.0.7:8081", "10.0.0.8:8081"])).connections.get "10.0.0.7:8081" = some 1 ∧
    (([PeerEvent.report "10.0.0.7:8081", PeerEvent.report "10.0.0.7:8081",
        PeerEvent.pass (fun _ => none), PeerEvent.report "10.0.0.7:8081"].foldl Api.step
      (NewAPI ["10.0.0.7:8081", "10.0.0.8:8081"])).report "10.0.0.7:8081").connections.get
        "10.0.0.7:8081" = some 1 :=
  ⟨by decide, by decide,
    (Api.reconnect_single_slot ["10.0.0.7:8081", "10.0.0.8:8081"]
      [PeerEvent.report "10.0.0.7:8081", PeerEvent.report "10.0.0.7:8081",
        PeerEvent.pass (fun _ => none), PeerEvent.report "10.0.0.7:8081"]
      "10.0.0.7:8081" (by decide)).2.1⟩

/-! ## Failure reports of a fan-out round -/

theorem peerTask_connections_get {P : Type} (method : String) (args : P) (keepErr : Bool)
    (res : String → Option String) (s : Round P) (id : String) (client : Client) (k : String) :
    (peerTask method args keepErr res s id client).connections.get k =
      if k = id ∧ res id ≠ none then (s.connections.get k).map afterReport
      else s.connections.get k := by
  rw [peerTask_eq]
  cases hr : res id with
  | none => simp
  | some err =>
    rw [reportFailure_eq]
    cases hg : s.connections.get id with
    | none =>
      by_cases hk : k = id
      · simp [hk, hg]
      · simp [hk]
    | some n =>
      cases n with
      | zero =>
        by_cases hk : k = id
        · simp [hk, hg, afterReport, GoMap.get_set_self]
        · simp [hk, GoMap.get_set_ne _ _ _ _ hk]
      | succ m =>
        by_cases hk : k = id
        · simp [hk, hg, afterReport]
        · simp [hk]

theorem afterReport_idem (x : Option Nat) :
    (x.map afterReport).map afterReport = x.map afterReport := by
  cases x with
  | none => rfl
  | some n => cases n <;> simp [afterReport]

theorem foldl_peerTask_connections_get {P : Type} (method : String) (args : P)
    (keepErr : Bool) (res : String → Option String) (pick : String × Client → Client)
    (l : List (String × Client)) (s : Round P) (k : String) :
    (l.foldl (fun s e => peerTask method args keepErr res s e.1 (pick e)) s).connections.get k =
      if k ∈ l.map Prod.fst ∧ res k ≠ none then (s.connections.get k).map afterReport
      else s.connections.get k := by
  induction l generalizing s with
  | nil => simp
  | cons e l ih =>
    rw [List.foldl_cons, ih, peerTask_connections_get]
    by_cases hr : res k = none
    · have h1 : ¬ (k ∈ l.map Prod.fst ∧ res k ≠ none) := fun h => h.2 hr
      have h2 : ¬ (k = e.1 ∧ res e.1 ≠ none) := fun h => h.2 (h.1 ▸ hr)
      have h3 : ¬ (k ∈ (e :: l).map Prod.fst ∧ res k ≠ none) := fun h => h.2 hr
      rw [if_neg h1, if_neg h2, if_neg h3]
    · by_cases hk : k = e.1
      · subst hk
        by_cases hm : e.1 ∈ l.map Prod.fst
        · simp only [hm, hr, ne_eq, not_false_eq_true, and_self, if_true, true_and,
            List.map_cons, List.mem_cons, true_or]
          exact afterReport_idem _
        · simp only [hm, hr, ne_eq, not_false_eq_true, and_true, if_false, true_and, if_true,
            List.map_cons, List.mem_cons, true_or, false_and]
      · have hiff : k ∈ (e :: l).map Prod.fst ↔ k ∈ l.map Prod.fst := by
          rw [List.map_cons, List.mem_cons]
          constructor
          · rintro (h | h)
            · exact absurd h hk
            · exact h
          · exact Or.inr
        simp only [hk, false_and, if_false, hiff]

theorem fanOut_connections_get {P : Type} (api : Api) (method : String) (args : P)
    (keepErr : Bool) (res : String → Option String) (k : String) :
    (fanOut api method args keepErr res).connections.get k =
      if k ∈ api.peers.keys ∧ res k ≠ none then (api.connections.get k).map afterReport
      else api.connections.get k := by
  unfold fanOut
  exact foldl_peerTask_connections_get method args keepErr res (fun e => e.2) _ _ k

theorem round_reports (api : Api) (res : String → Option String) (c : GoMap Nat)
    (hl : api.Linked)
    (hc : ∀ k, c.get k =
      if k ∈ api.peers.keys ∧ res k ≠ none then (api.connections.get k).map afterReport
      else api.connections.get k) :
    (∀ id ∈ api.peers.keys, res id ≠ none →
      c.get id = (api.connections.get id).map afterReport ∧ ∃ n, c.get id = some n ∧ 1 ≤ n) ∧
    (∀ id, res id = none → c.get id = api.connections.get id) := by
  refine ⟨?_, ?_⟩
  · intro id hid hr
    have h := hc id
    rw [if_pos ⟨hid, hr⟩] at h
    refine ⟨h, ?_⟩
    have hs := hl id hid
    cases hg : api.connections.get id with
    | none => rw [hg] at hs; cases hs
    | some n =>
      rw [hg] at h
      refine ⟨afterReport n, h, ?_⟩
      unfold afterReport
      split <;> omega
  · intro id hr
    have h := hc id
    rw [if_neg (fun h' => h'.2 hr)] at h
    exact h

/-- Claim C15. In the fan-out round of every handler, fire-and-forget (`ApiNetstat`,
`ApiTracert`, `ApiStatus`, `ApiExceptions` POST) or awaited (`ApiRecords` POST and DELETE,
`ApiExceptions` GET and DELETE), for every set of live peers, each with its channel, and
every assignment of call results: after the round the channel of every peer whose call
failed holds a reconnect request (it took one if it was empty and is as before
otherwise), and the channel of every peer whose call succeeded is as it was before the
round. -/
theorem fanOut_reports {E A : Type} (api : Api) (data : List SockTable) (keys : List String)
    (exps : List E) (getId : E → String) (withId : E → String → E) (GetIdExp : E → String)
    (args : A) (res : String → Option String) (seed : Nat) (loopVar : String → Client)
    (hl : api.Linked) :
    ∀ c ∈ [(ApiNetstatPost api data res).1.connections,
        (ApiTracertPost api data res).1.connections,
        (ApiStatusPost api data res loopVar).1.connections,
        (ApiRecordsPost api data res).1.connections,
        (ApiRecordsDelete api keys res seed).1.connections,
        (ApiExceptionsPost getId withId GetIdExp api exps res).1.connections,
        (ApiExceptionsGetRound api args res).connections,
        (ApiExceptionsDelete api keys res seed).1.connections],
      (∀ id ∈ api.peers.keys, res id ≠ none →
        c.get id = (api.connections.get id).map afterReport ∧
        ∃ n, c.get id = some n ∧ 1 ≤ n) ∧
      (∀ id, res id = none → c.get id = api.connections.get id) := by
  intro c hc
  apply round_reports api res c hl
  intro k
  simp only [List.mem_cons, List.mem_singleton, List.not_mem_nil, or_false] at hc
  rcases hc with rfl | rfl | rfl | rfl | rfl | rfl | rfl | rfl
  · exact fanOut_connections_get api _ _ _ res k
  · exact fanOut_connections_get api _ _ _ res k
  · exact foldl_peerTask_connections_get "RPC.SetStatus" data false res
      (fun e => loopVar e.1) _ _ k
  · exact fanOut_connections_get api _ _ _ res k
  · exact fanOut_connections_get api _ _ _ res k
  · exact fanOut_connections_get api _ _ _ res k
  · exact fanOut_connections_get api _ _ _ res k
  · exact fanOut_connections_get api _ _ _ res k

/-- Claim C15 at `twoPeers` when the first peer fails a `RPC.SetNetstat` call: its
channel holds a request after the round and the channel of the second peer is empty as
before. -/
theorem fanOut_reports_witness :
    twoPeers.Linked ∧
    (ApiNetstatPost twoPeers [] firstFails).1.connections.get "10.0.0.7:8081" = some 1 ∧
    (ApiNetstatPost twoPeers [] firstFails).1.connections.get "10.0.0.8:8081" =
      twoPeers.connections.get "10.0.0.8:8081" :=
  ⟨by decide, by decide,
    ((fanOut_reports twoPeers [] [] ([] : List String) id (fun e _ => e) id () firstFails 0
      (fun _ => 0) (by decide)
      (ApiNetstatPost twoPeers [] firstFails).1.connections (List.mem_cons_self _ _)).2
      "10.0.0.8:8081" (by decide))⟩

/-! ## Answer of `ApiRecords` (POST) and the handles the calls are made on -/

/-- With every live peer linked to its channel, `ApiRecords` (POST) answers 204 without a
body whatever the peers return. -/
theorem ApiRecordsPost_reply (api : Api) (data : List SockTable)
    (res : String → Option String) (hl : api.Linked) :
    (ApiRecordsPost api data res).2 = some ⟨204, none⟩ := by
  unfold ApiRecordsPost
  simp only []
  rw [if_pos (fanOut_blocked api _ _ false res hl)]

/-- Claim C11 at a failing input: with two live peers of which the first fails its
`RPC.SetRecords` call, `ApiRecords` (POST) answers 204 without a body, the answer it gives
when every peer accepts, whereas `ApiRecords` (DELETE) answers 500 with the error of the
peer in the same round. -/
theorem ApiRecordsPost_failure_unreported :
    firstFails "10.0.0.7:8081" = some "connection is shut down" ∧
    (ApiRecordsPost twoPeers [sampleRecord (some [10, 0, 0, 1]) 80 "" 0] firstFails).2 =
      some ⟨204, none⟩ ∧
    (ApiRecordsPost twoPeers [sampleRecord (some [10, 0, 0, 1]) 80 "" 0] (fun _ => none)).2 =
      some ⟨204, none⟩ ∧
    (ApiRecordsDelete twoPeers ["k1"] firstFails 0).2 =
      some ⟨500, some ⟨"error", "connection is shut down"⟩⟩ := by
  decide

/-- Every handler other than `ApiStatus` issues one call to each live peer, on the handle
of that peer and with the payload of the request. -/
theorem handlers_call_own_handle {E A : Type} (api : Api) (data : List SockTable)
    (keys : List String) (exps : List E) (getId : E → String) (withId : E → String → E)
    (GetIdExp : E → String) (args : A) (res : String → Option String) (seed : Nat) :
    (ApiNetstatPost api data res).1.calls =
      api.peers.entries.map (fun e => ⟨e.1, e.2, "RPC.SetNetstat", data⟩) ∧
    (ApiTracertPost api data res).1.calls =
      api.peers.entries.map (fun e => ⟨e.1, e.2, "RPC.SetTracert", data⟩) ∧
    (ApiRecordsPost api data res).1.calls =
      api.peers.entries.map (fun e => ⟨e.1, e.2, "RPC.SetRecords", admitRecords data⟩) ∧
    (ApiRecordsDelete api keys res seed).1.calls =
      api.peers.entries.map (fun e => ⟨e.1, e.2, "RPC.DelRecords", keys⟩) ∧
    (ApiExceptionsDelete api keys res seed).1.calls =
      api.peers.entries.map (fun e => ⟨e.1, e.2, "RPC.DelExceptions", keys⟩) ∧
    (ApiExceptionsGetRound api args res).calls =
      api.peers.entries.map (fun e => ⟨e.1, e.2, "RPC.GetExceptions", args⟩) ∧
    (ApiExceptionsPost getId withId GetIdExp api exps res).1.calls.map
        (fun c => (c.peer, c.client)) = api.peers.entries :=
  ⟨fanOut_calls api _ _ _ res, fanOut_calls api _ _ _ res, fanOut_calls api _ _ _ res,
    fanOut_calls api _ _ _ res, fanOut_calls api _ _ _ res, fanOut_calls api _ _ _ res, by
      unfold ApiExceptionsPost
      simp only []
      rw [fanOut_calls, List.map_map]
      exact List.map_id _⟩

/-- Claim C16 at a failing input: with two live peers whose handles are 1 and 2, when the
goroutines of `ApiStatus` read the loop variable `client` after the loop has reached the
second peer, both calls of the round are made on handle 2: the call issued for the first
peer goes to the second peer, which gets two calls, and no call is made on handle 1. -/
theorem ApiStatusPost_wrong_handle :
    twoPeers.peers.get "10.0.0.7:8081" = some 1 ∧
    (ApiStatusPost twoPeers [sampleRecord (some [10, 0, 0, 1]) 80 "" 0] (fun _ => none)
        (fun _ => 2)).1.calls =
      [⟨"10.0.0.7:8081", 2, "RPC.SetStatus", [sampleRecord (some [10, 0, 0, 1]) 80 "" 0]⟩,
        ⟨"10.0.0.8:8081", 2, "RPC.SetStatus", [sampleRecord (some [10, 0, 0, 1]) 80 "" 0]⟩] ∧
    (ApiNetstatPost twoPeers [sampleRecord (some [10, 0, 0, 1]) 80 "" 0]
        (fun _ => none)).1.calls.map (fun c => (c.peer, c.client)) =
      [("10.0.0.7:8081", 1), ("10.0.0.8:8081", 2)] := by
  decide

/-! ## The string that `GetID` hashes is not injective -/

theorem split_at_colon (a a' r r' : List Char) (ha : ':' ∉ a) (ha' : ':' ∉ a')
    (h : a ++ ':' :: r = a' ++ ':' :: r') : a = a' ∧ r = r' := by
  induction a generalizing a' with
  | nil =>
    cases a' with
    | nil =>
      simp only [List.nil_append, List.cons.injEq, true_and] at h
      exact ⟨rfl, h⟩
    | cons c t =>
      simp only [List.nil_append, List.cons_append, List.cons.injEq] at h
      exact absurd (h.1 ▸ List.mem_cons_self _ _) ha'
  | cons c t ih =>
    cases a' with
    | nil =>
      simp only [List.nil_append, List.cons_append, List.cons.injEq] at h
      exact absurd (h.1 ▸ List.mem_cons_self _ _) ha
    | cons c' t' =>
      simp only [List.cons_append, List.cons.injEq] at h
      obtain ⟨e1, e2⟩ := ih t' (fun hm => ha (List.mem_cons_of_mem _ hm))
        (fun hm => ha' (List.mem_cons_of_mem _ hm)) h.2
      exact ⟨by rw [h.1, e1], e2⟩

theorem idText_data (r : SockTable) :
    (idText r).data =
      r.LocalAddr.IP.String.data ++ ':' :: (r.LocalAddr.Name.data ++ ':' ::
        (r.RemoteAddr.IP.String.data ++ ':' :: (r.RemoteAddr.Name.data ++ ':' ::
          (r.Relation.Mode.data ++ ':' :: (fmtUint r.Relation.Port).data)))) := by
  simp [idText, String.data_append]

/-- Claim C17, as stated, fails. Three pairs of records with different tuples and one
string: a `:` moved from the remote name into the mode; names without `:` next to IPv6
addresses, `1::2` with name `3` and remote address `4:5::` against `1::2:3` with name
`4` and remote address `5::`; and the nil IP against the empty one. -/
theorem idText_counterexample :
    (¬ sameTuple (tupleRecord (some [10, 0, 0, 1]) "alpha" (some [10, 0, 0, 2]) "b:c" "tcp")
        (tupleRecord (some [10, 0, 0, 1]) "alpha" (some [10, 0, 0, 2]) "b" "c:tcp") ∧
      idText (tupleRecord (some [10, 0, 0, 1]) "alpha" (some [10, 0, 0, 2]) "b:c" "tcp") =
        idText (tupleRecord (some [10, 0, 0, 1]) "alpha" (some [10, 0, 0, 2]) "b" "c:tcp")) ∧
    (¬ sameTuple
        (tupleRecord (some [0, 1, 0, 0, 0, 0, 0, 0, 0, 0, 0, 0, 0, 0, 0, 2]) "3"
          (some [0, 4, 0, 5, 0, 0, 0, 0, 0, 0, 0, 0, 0, 0, 0, 0]) "beta" "tcp")
        (tupleRecord (some [0, 1, 0, 0, 0, 0, 0, 0, 0, 0, 0, 0, 0, 2, 0, 3]) "4"
          (some [0, 5, 0, 0, 0, 0, 0, 0, 0, 0, 0, 0, 0, 0, 0, 0]) "beta" "tcp") ∧
      idText
        (tupleRecord (some [0, 1, 0, 0, 0, 0, 0, 0, 0, 0, 0, 0, 0, 0, 0, 2]) "3"
          (some [0, 4, 0, 5, 0, 0, 0, 0, 0, 0, 0, 0, 0, 0, 0, 0]) "beta" "tcp") =
      idText
        (tupleRecord (some [0, 1, 0, 0, 0, 0, 0, 0, 0, 0, 0, 0, 0, 2, 0, 3]) "4"
          (some [0, 5, 0, 0, 0, 0, 0, 0, 0, 0, 0, 0, 0, 0, 0, 0]) "beta" "tcp")) ∧
    (¬ sameTuple (tupleRecord none "alpha" (some [10, 0, 0, 2]) "beta" "tcp")
        (tupleRecord (some []) "alpha" (some [10, 0, 0, 2]) "beta" "tcp") ∧
      idText (tupleRecord none "alpha" (some [10, 0, 0, 2]) "beta" "tcp") =
        idText (tupleRecord (some []) "alpha" (some [10, 0, 0, 2]) "beta" "tcp")) := by
  decide

theorem digitChar_ne_colon (d : Nat) (h : d < 10) : Nat.digitChar d ≠ ':' := by
  interval_cases d <;> decide

theorem digitsBE_no_colon (fuel n : Nat) : ':' ∉ digitsBE 10 fuel n := by
  induction fuel generalizing n with
  | zero => simp [digitsBE]
  | succ fuel ih =>
    rw [digitsBE]
    split
    · rename_i hlt
      rw [List.mem_singleton]
      exact fun h => digitChar_ne_colon n hlt h.symm
    · rw [List.mem_append, List.mem_singleton]
      rintro (h | h)
      · exact ih _ h
      · exact digitChar_ne_colon _ (Nat.mod_lt _ (by decide)) h.symm

theorem intercalate_go_noColon (l : List String) (acc : String) (ha : noColon acc)
    (hl : ∀ x ∈ l, noColon x) : noColon (String.intercalate.go acc "." l) := by
  induction l generalizing acc with
  | nil => exact ha
  | cons x l ih =>
    rw [String.intercalate.go]
    apply ih
    · unfold noColon at ha ⊢
      have hx : ':' ∉ x.data := hl x (List.mem_cons_self _ _)
      simp only [String.data_append, List.mem_append, not_or]
      exact ⟨⟨ha, by decide⟩, hx⟩
    · exact fun y hy => hl y (List.mem_cons_of_mem _ hy)

theorem fmtIPv4_noColon (p : List Nat) : noColon (fmtIPv4 p) := by
  unfold fmtIPv4
  cases p with
  | nil => decide
  | cons a p =>
    rw [List.map_cons, String.intercalate]
    apply intercalate_go_noColon
    · exact digitsBE_no_colon _ _
    · intro x hx
      obtain ⟨n, _, rfl⟩ := List.mem_map.1 hx
      exact digitsBE_no_colon _ _

/-- The nil IP and every IPv4 address, in its 4-byte form or as an IPv4-mapped 16-byte
address, print without a `:`. -/
theorem NetIP_String_noColon (ip : NetIP)
    (h : ip = none ∨ ∃ bs p4, ip = some bs ∧ To4 bs = some p4) : noColon ip.String := by
  rcases h with rfl | ⟨bs, p4, rfl, h4⟩
  · decide
  · have hlen : bs.length = 4 ∨ bs.length = 16 := by
      unfold To4 at h4
      split at h4
      · rename_i h; exact Or.inl h
      · split at h4
        · rename_i h; exact Or.inr h.1
        · cases h4
    unfold NetIP.String
    simp only []
    rw [if_neg (by omega), if_neg (by omega), h4]
    exact fmtIPv4_noColon p4

/-- Claim C17, as amended. On records whose names, mode and textual forms of the IPs
have no `:` in them, the string that `GetID` hashes determines the two names, the
mode, the port and the textual form (`net.IP.String`) of the two IPs: two such records
have the same string exactly when they agree on these six, so they can share an id in
no other way than by agreeing on them or through a digest collision. -/
theorem idText_eq_iff (r r' : SockTable) (h : printsNoColon r) (h' : printsNoColon r') :
    idText r = idText r' ↔
      (r.LocalAddr.IP.String = r'.LocalAddr.IP.String ∧
        r.LocalAddr.Name = r'.LocalAddr.Name ∧
        r.RemoteAddr.IP.String = r'.RemoteAddr.IP.String ∧
        r.RemoteAddr.Name = r'.RemoteAddr.Name ∧
        r.Relation.Mode = r'.Relation.Mode ∧
        r.Relation.Port = r'.Relation.Port) := by
  obtain ⟨a1, a2, a3, a4, a5⟩ := h
  obtain ⟨b1, b2, b3, b4, b5⟩ := h'
  constructor
  · intro he
    have hd := congrArg String.data he
    rw [idText_data, idText_data] at hd
    obtain ⟨e1, hd⟩ := split_at_colon _ _ _ _ a1 b1 hd
    obtain ⟨e2, hd⟩ := split_at_colon _ _ _ _ a2 b2 hd
    obtain ⟨e3, hd⟩ := split_at_colon _ _ _ _ a3 b3 hd
    obtain ⟨e4, hd⟩ := split_at_colon _ _ _ _ a4 b4 hd
    obtain ⟨e5, hd⟩ := split_at_colon _ _ _ _ a5 b5 hd
    exact ⟨String.ext e1, String.ext e2, String.ext e3, String.ext e4, String.ext e5,
      fmtUint_injective _ _ (String.ext hd)⟩
  · rintro ⟨e1, e2, e3, e4, e5, e6⟩
    unfold idText
    rw [e1, e2, e3, e4, e5, e6]

/-- The amended claim C17 at two records with IPv4 addresses that differ in the local
name: the strings differ. -/
theorem idText_eq_iff_witness :
    (printsNoColon (tupleRecord (some [10, 0, 0, 1]) "alpha" (some [10, 0, 0, 2]) "beta" "tcp") ∧
      printsNoColon (tupleRecord (some [10, 0, 0, 1]) "gamma" (some [10, 0, 0, 2]) "beta" "tcp")) ∧
    idText (tupleRecord (some [10, 0, 0, 1]) "alpha" (some [10, 0, 0, 2]) "beta" "tcp") ≠
      idText (tupleRecord (some [10, 0, 0, 1]) "gamma" (some [10, 0, 0, 2]) "beta" "tcp") :=
  ⟨⟨by decide, by decide⟩, fun he =>
    absurd ((idText_eq_iff _ _ (by decide) (by decide)).1 he).2.1 (by decide)⟩

end Netmap
